import Mathlib

/-!
Verification of the generation-and-parsing pipeline of the AI flashcard
generator (src/app.py).  Python text is modelled as a list of Unicode code
points (`PyStr`).  The response decoding of `generate_flashcards`
(lines 43-56), the prompt template (lines 20-39), the JSON export of
`save_flashcards` (lines 71-74), and the submit / display decisions of
`main` (lines 111-135) are embedded below.  `json.loads` and `json.dump`
are Python standard-library calls; they are modelled faithfully after
CPython's `json` package (py_scanstring / JSONArray / JSONObject /
NUMBER_RE and py_encode_basestring_ascii with `indent=2`).
-/

/-- Python strings are sequences of Unicode code points. -/
abbrev PyStr := List Nat

/-- Code-point list of a Lean string literal. -/
def lit (s : String) : PyStr := s.data.map Char.toNat

/-- Whitespace stripped by Python `str.strip()` (the ASCII subset:
space, tab, newline, carriage return, vertical tab, form feed). -/
def isPyWs (c : Nat) : Bool :=
  c == 32 || c == 9 || c == 10 || c == 13 || c == 11 || c == 12

/-- Left part of `str.strip()`. -/
def pyLStrip (s : PyStr) : PyStr := s.dropWhile isPyWs

/-- Right part of `str.strip()`. -/
def pyRStrip (s : PyStr) : PyStr := (s.reverse.dropWhile isPyWs).reverse

/-- Python `str.strip()`. -/
def pyStrip (s : PyStr) : PyStr := pyRStrip (pyLStrip s)

/-- JSON whitespace (the WHITESPACE regex of CPython's json module:
space, tab, newline, carriage return only). -/
def isJsonWs (c : Nat) : Bool := c == 32 || c == 9 || c == 10 || c == 13

/-- Skip JSON whitespace. -/
def skipWs (s : PyStr) : PyStr := s.dropWhile isJsonWs

/-- The triple-backtick fence delimiter used on line 46 of src/app.py. -/
def ticks : PyStr := [96, 96, 96]

/-- Index of the first occurrence of `sep` in `s` (used to model
Python's `str.split(sep)[1]`). -/
def findSub (sep : PyStr) : PyStr → Option Nat
  | [] => if sep.isPrefixOf ([] : PyStr) then some 0 else none
  | c :: s' =>
    if sep.isPrefixOf (c :: s') then some 0
    else (findSub sep s').map (· + 1)

/-- Parsed JSON values.  Numeric literals are kept raw (the exact text
matched by CPython's NUMBER_RE or one of NaN / Infinity / -Infinity);
no claim compares numeric values, only structure. -/
inductive Json where
  | null : Json
  | bool (b : Bool) : Json
  | num (raw : PyStr) : Json
  | str (s : PyStr) : Json
  | arr (elems : List Json) : Json
  | obj (members : List (PyStr × Json)) : Json

/-- Value of a hexadecimal digit, as accepted by `\uXXXX` escapes. -/
def hexVal (c : Nat) : Option Nat :=
  if 48 ≤ c ∧ c ≤ 57 then some (c - 48)
  else if 97 ≤ c ∧ c ≤ 102 then some (c - 87)
  else if 65 ≤ c ∧ c ≤ 70 then some (c - 55)
  else none

/-- Four hex digits to a number (CPython `_decode_uXXXX`). -/
def hex4 (a b c d : Nat) : Option Nat :=
  match hexVal a, hexVal b, hexVal c, hexVal d with
  | some x, some y, some z, some w => some (x * 4096 + y * 256 + z * 16 + w)
  | _, _, _, _ => none

/-- Single-character escapes accepted after a backslash
(CPython's BACKSLASH table). -/
def unescChar (c : Nat) : Option Nat :=
  if c = 34 then some 34
  else if c = 92 then some 92
  else if c = 47 then some 47
  else if c = 98 then some 8
  else if c = 102 then some 12
  else if c = 110 then some 10
  else if c = 114 then some 13
  else if c = 116 then some 9
  else none

/-- CPython `py_scanstring` (strict mode), entered after the opening
quote: returns the decoded characters and the text after the closing
quote.  Adjacent `\uXXXX` escapes forming a high/low surrogate pair are
combined into one supplementary code point, exactly as in CPython.
The fuel only bounds the recursion; every step consumes at least one
input character, so `length + 1` fuel (see `scanStr`) never runs out. -/
def scanStrF : Nat → PyStr → Option (PyStr × PyStr)
  | 0, _ => none
  | _ + 1, [] => none
  | _ + 1, 34 :: rest => some ([], rest)
  | fuel + 1, 92 :: 117 :: a :: b :: c :: d :: rest =>
    (match hex4 a b c d with
     | none => none
     | some n =>
       if 55296 ≤ n ∧ n ≤ 56319 then
         match rest with
         | 92 :: 117 :: a2 :: b2 :: c2 :: d2 :: rest2 =>
           (match hex4 a2 b2 c2 d2 with
            | none => none
            | some m =>
              if 56320 ≤ m ∧ m ≤ 57343 then
                (scanStrF fuel rest2).map
                  (fun p => ((65536 + (n - 55296) * 1024 + (m - 56320)) :: p.1, p.2))
              else
                (scanStrF fuel rest).map (fun p => (n :: p.1, p.2)))
         | _ => (scanStrF fuel rest).map (fun p => (n :: p.1, p.2))
       else (scanStrF fuel rest).map (fun p => (n :: p.1, p.2)))
  | fuel + 1, 92 :: e :: rest =>
    (match unescChar e with
     | some u => (scanStrF fuel rest).map (fun p => (u :: p.1, p.2))
     | none => none)
  | fuel + 1, c :: rest =>
    if c < 32 then none
    else (scanStrF fuel rest).map (fun p => (c :: p.1, p.2))

/-- CPython `py_scanstring` on its input, with always-sufficient fuel. -/
def scanStr (s : PyStr) : Option (PyStr × PyStr) := scanStrF (s.length + 1) s

/-- Decimal digit test. -/
def isDigit (c : Nat) : Bool := 48 ≤ c && c ≤ 57

/-- Longest digit run at the front of the text. -/
def munchDigits : PyStr → PyStr × PyStr
  | [] => ([], [])
  | c :: t =>
    if isDigit c then
      let p := munchDigits t
      (c :: p.1, p.2)
    else ([], c :: t)

/-- Integer part of NUMBER_RE: `0 | [1-9][0-9]*`. -/
def parseIntPart : PyStr → Option (PyStr × PyStr)
  | [] => none
  | c :: t =>
    if c = 48 then some ([48], t)
    else if isDigit c then
      let p := munchDigits t
      some (c :: p.1, p.2)
    else none

/-- Optional fraction group of NUMBER_RE: `(\.[0-9]+)?`. -/
def parseFrac (s : PyStr) : PyStr × PyStr :=
  match s with
  | 46 :: d :: t =>
    if isDigit d then
      let p := munchDigits (d :: t)
      (46 :: p.1, p.2)
    else ([], s)
  | _ => ([], s)

/-- Optional exponent group of NUMBER_RE: `([eE][-+]?[0-9]+)?`. -/
def parseExp (s : PyStr) : PyStr × PyStr :=
  match s with
  | e :: c :: t =>
    if e = 101 ∨ e = 69 then
      if isDigit c then
        let p := munchDigits (c :: t)
        (e :: p.1, p.2)
      else if c = 43 ∨ c = 45 then
        match t with
        | d :: _ =>
          if isDigit d then
            let p := munchDigits t
            (e :: c :: p.1, p.2)
          else ([], s)
        | [] => ([], s)
      else ([], s)
    else ([], s)
  | _ => ([], s)

/-- Numeric literal match at the current position (CPython NUMBER_RE):
returns the raw matched text and the remainder. -/
def parseNum (s : PyStr) : Option (PyStr × PyStr) :=
  match s with
  | 45 :: t =>
    (match parseIntPart t with
     | none => none
     | some (ip, r1) =>
       let f := parseFrac r1
       let e := parseExp f.2
       some (45 :: (ip ++ f.1 ++ e.1), e.2))
  | _ =>
    match parseIntPart s with
    | none => none
    | some (ip, r1) =>
      let f := parseFrac r1
      let e := parseExp f.2
      some (ip ++ f.1 ++ e.1, e.2)

mutual

/-- One JSON value at the current position (CPython `_scan_once`),
with fuel for the structural recursion.  The order of the checks is
the scanner's: string, object, array, null, true, false, number,
NaN, Infinity, -Infinity. -/
def parseVal : Nat → PyStr → Option (Json × PyStr)
  | 0, _ => none
  | _ + 1, [] => none
  | fuel + 1, c :: s =>
    if c = 34 then
      match scanStr s with
      | some (cs, r) => some (.str cs, r)
      | none => none
    else if c = 123 then
      match skipWs s with
      | 125 :: r => some (.obj [], r)
      | s' =>
        match parseObjMembers fuel s' with
        | some (ms, r) => some (.obj ms, r)
        | none => none
    else if c = 91 then
      match skipWs s with
      | 93 :: r => some (.arr [], r)
      | s' =>
        match parseArrElems fuel s' with
        | some (vs, r) => some (.arr vs, r)
        | none => none
    else if (lit "null").isPrefixOf (c :: s) then some (.null, (c :: s).drop 4)
    else if (lit "true").isPrefixOf (c :: s) then some (.bool true, (c :: s).drop 4)
    else if (lit "false").isPrefixOf (c :: s) then some (.bool false, (c :: s).drop 5)
    else
      match parseNum (c :: s) with
      | some (raw, r) => some (.num raw, r)
      | none =>
        if (lit "NaN").isPrefixOf (c :: s) then some (.num (lit "NaN"), (c :: s).drop 3)
        else if (lit "Infinity").isPrefixOf (c :: s) then
          some (.num (lit "Infinity"), (c :: s).drop 8)
        else if (lit "-Infinity").isPrefixOf (c :: s) then
          some (.num (lit "-Infinity"), (c :: s).drop 9)
        else none

/-- Comma-separated array elements (CPython JSONArray), entered after
`[` and leading whitespace, on a non-`]` character. -/
def parseArrElems : Nat → PyStr → Option (List Json × PyStr)
  | 0, _ => none
  | fuel + 1, s =>
    match parseVal fuel s with
    | none => none
    | some (v, r) =>
      match skipWs r with
      | 93 :: r2 => some ([v], r2)
      | 44 :: r2 =>
        (match parseArrElems fuel (skipWs r2) with
         | some (vs, r3) => some (v :: vs, r3)
         | none => none)
      | _ => none

/-- Comma-separated object members (CPython JSONObject), entered after
`{` and leading whitespace, on a non-`}` character. -/
def parseObjMembers : Nat → PyStr → Option (List (PyStr × Json) × PyStr)
  | 0, _ => none
  | fuel + 1, s =>
    match s with
    | 34 :: s1 =>
      (match scanStr s1 with
       | none => none
       | some (key, r1) =>
         match skipWs r1 with
         | 58 :: r2 =>
           (match parseVal fuel (skipWs r2) with
            | none => none
            | some (v, r3) =>
              match skipWs r3 with
              | 125 :: r4 => some ([(key, v)], r4)
              | 44 :: r4 =>
                (match parseObjMembers fuel (skipWs r4) with
                 | some (ms, r5) => some ((key, v) :: ms, r5)
                 | none => none)
              | _ => none)
         | _ => none)
    | _ => none

end

/-- Python `json.loads`: skip leading whitespace, read one value, and
require that only whitespace remains ("Extra data" otherwise).  The
fuel `s.length + 1` is an upper bound on the scanner's recursion for
the inputs settled here; a fuel exhaustion models CPython's
RecursionError, which `generate_flashcards` also surfaces as `None`
through its generic `except Exception` handler. -/
def json_loads (s : PyStr) : Option Json :=
  match parseVal (s.length + 1) (skipWs s) with
  | some (v, r) => if skipWs r = [] then some v else none
  | none => none

/-- The fence-stripping of src/app.py lines 46-49: if the text starts
with three backticks, keep `text.split('```')[1]` and drop a leading
`json` tag. -/
def fenceStrip (s : PyStr) : PyStr :=
  if ticks.isPrefixOf s then
    let rest := s.drop 3
    let mid := match findSub ticks rest with
      | some i => rest.take i
      | none => rest
    if (lit "json").isPrefixOf mid then mid.drop 4 else mid
  else s

/-- Response decoding of `generate_flashcards` (src/app.py lines
43-56): strip, remove a markdown fence if present, `json.loads`.
`none` is the `except json.JSONDecodeError` path (the function shows
`st.error` and returns `None`). -/
def decodeResponse (raw : PyStr) : Option Json :=
  let t := pyStrip raw
  let t2 :=
    if ticks.isPrefixOf t then
      let rest := t.drop 3
      let mid := match findSub ticks rest with
        | some i => rest.take i
        | none => rest
      if (lit "json").isPrefixOf mid then mid.drop 4 else mid
    else t
  json_loads t2

theorem decodeResponse_eq (raw : PyStr) :
    decodeResponse raw = json_loads (fenceStrip (pyStrip raw)) := rfl

/-- Decimal rendering of a Python int inside an f-string. -/
def decRepr (n : Nat) : PyStr := lit (Nat.repr n)

/-- The prompt f-string of `generate_flashcards` (src/app.py lines
20-39), with `{num_cards}` and `{text}` interpolated (the doubled
braces of the f-string render as single braces). -/
def buildPrompt (text : PyStr) (num_cards : Nat) : PyStr :=
  lit "\n    You are an expert educator. Analyze the following text and create " ++
  decRepr num_cards ++
  lit " flashcards.\n    \n    TEXT:\n    " ++
  text ++
  lit "\n    \n    INSTRUCTIONS:\n    - Create clear, concise questions that test understanding\n    - Provide accurate, complete answers\n    - Cover key concepts from the text\n    - Make questions varied (definitions, concepts, applications)\n    \n    OUTPUT FORMAT (JSON only, no markdown):\n    [\n        \x7b\"question\": \"What is...?\", \"answer\": \"...\"\x7d,\n        \x7b\"question\": \"Explain...\", \"answer\": \"...\"\x7d\n    ]\n    \n    Generate exactly " ++
  decRepr num_cards ++
  lit " flashcards in valid JSON format.\n    "

/-- `generate_flashcards` (src/app.py lines 17-59).  The Gemini call is
an external collaborator, modelled as an oracle from the prompt to the
raw response text; `none` from the oracle is a provider exception,
caught by the generic handler. -/
def generate_flashcards (provider : PyStr → Option PyStr) (text : PyStr)
    (num_cards : Nat) : Option Json :=
  match provider (buildPrompt text num_cards) with
  | none => none
  | some response_text => decodeResponse response_text

/-- Outcome of pressing the generate button (src/app.py lines 111-116). -/
inductive SubmitOutcome where
  | warned : SubmitOutcome
  | generated (result : Option Json) : SubmitOutcome

/-- The submit branch of `main` (src/app.py lines 111-116):
`if not text_input or len(text_input) < 50` shows a warning and never
invokes the pipeline; otherwise the pipeline runs. -/
def mainSubmit (provider : PyStr → Option PyStr) (text_input : PyStr)
    (num_cards : Nat) : SubmitOutcome :=
  if text_input = [] ∨ text_input.length < 50 then .warned
  else .generated (generate_flashcards provider text_input num_cards)

/-- Python truthiness of a parsed numeric literal: zero mantissas are
falsy, NaN and the infinities are truthy. -/
def pyTruthyNum (raw : PyStr) : Bool :=
  if raw = lit "NaN" ∨ raw = lit "Infinity" ∨ raw = lit "-Infinity" then true
  else (raw.takeWhile (fun c => !(c == 101 || c == 69))).any (fun c => 49 ≤ c && c ≤ 57)

/-- Python truthiness (`if flashcards:`) of a decoded JSON value. -/
def pyTruthy : Json → Bool
  | .null => false
  | .bool b => b
  | .num raw => pyTruthyNum raw
  | .str s => !s.isEmpty
  | .arr xs => !xs.isEmpty
  | .obj ms => !ms.isEmpty

/-- What `main` does with the pipeline result (src/app.py lines
116-135): `rendered` is the `if flashcards:` branch (success banner,
expanders, CSV and JSON files written); `skipped` falls through with
no success message, no display, and no files. -/
inductive PostGen where
  | rendered (cards : Json) : PostGen
  | skipped : PostGen

/-- The `if flashcards:` decision of `main` (src/app.py line 118). -/
def mainPostGenerate (flashcards : Option Json) : PostGen :=
  match flashcards with
  | some v => if pyTruthy v then .rendered v else .skipped
  | none => .skipped

/-- Lowercase hex digit (CPython `'\\u{0:04x}'.format`). -/
def toHexDigit (n : Nat) : Nat := if n < 10 then 48 + n else 87 + n

/-- Four lowercase hex digits of `n < 65536`. -/
def toHex4 (n : Nat) : PyStr :=
  [toHexDigit (n / 4096 % 16), toHexDigit (n / 256 % 16),
   toHexDigit (n / 16 % 16), toHexDigit (n % 16)]

/-- Per-character escaping of CPython `py_encode_basestring_ascii`
(the `ensure_ascii=True` default of `json.dump`): printable ASCII
other than quote and backslash is literal, the ESCAPE_DCT shorthands
apply, everything else becomes `\uXXXX` (a surrogate pair above
U+FFFF). -/
def escChar (c : Nat) : PyStr :=
  if c = 34 then [92, 34]
  else if c = 92 then [92, 92]
  else if c = 8 then [92, 98]
  else if c = 9 then [92, 116]
  else if c = 10 then [92, 110]
  else if c = 12 then [92, 102]
  else if c = 13 then [92, 114]
  else if c < 32 then 92 :: 117 :: toHex4 c
  else if c ≤ 126 then [c]
  else if c < 65536 then 92 :: 117 :: toHex4 c
  else
    (92 :: 117 :: toHex4 (55296 + (c - 65536) / 1024)) ++
    (92 :: 117 :: toHex4 (56320 + (c - 65536) % 1024))

/-- Escaped body of a serialized JSON string. -/
def escStr (s : PyStr) : PyStr := (s.map escChar).flatten

/-- Newline plus the 2-space-per-level indentation emitted by
`json.dump(..., indent=2)`. -/
def indentStr (level : Nat) : PyStr := 10 :: List.replicate (2 * level) 32

mutual

/-- CPython's `json.dump(value, f, indent=2)` output (the iterencode
with item separator `,` and key separator `: `).  Numeric raws are
reproduced verbatim (their rendering is not exercised by any claim). -/
def dumpJson : Json → Nat → PyStr
  | .null, _ => lit "null"
  | .bool true, _ => lit "true"
  | .bool false, _ => lit "false"
  | .num raw, _ => raw
  | .str s, _ => 34 :: (escStr s ++ [34])
  | .arr [], _ => lit "[]"
  | .arr (x :: xs), level =>
    91 :: (indentStr (level + 1) ++ dumpJson x (level + 1) ++
      dumpArrTail xs (level + 1) ++ indentStr level ++ [93])
  | .obj [], _ => lit "\x7b\x7d"
  | .obj (m :: ms), level =>
    123 :: (indentStr (level + 1) ++ dumpMember m (level + 1) ++
      dumpObjTail ms (level + 1) ++ indentStr level ++ [125])

/-- Remaining array items, each preceded by `,` and fresh indentation. -/
def dumpArrTail : List Json → Nat → PyStr
  | [], _ => []
  | x :: xs, level => 44 :: (indentStr level ++ dumpJson x level ++ dumpArrTail xs level)

/-- One `"key": value` member. -/
def dumpMember : PyStr × Json → Nat → PyStr
  | (k, v), level => 34 :: (escStr k ++ [34] ++ lit ": " ++ dumpJson v level)

/-- Remaining object members, each preceded by `,` and fresh indentation. -/
def dumpObjTail : List (PyStr × Json) → Nat → PyStr
  | [], _ => []
  | m :: ms, level => 44 :: (indentStr level ++ dumpMember m level ++ dumpObjTail ms level)

end

/-- A flashcard record: question and answer texts. -/
abbrev Card := PyStr × PyStr

/-- The `{question, answer}` JSON object of one flashcard, with keys in
the order the spec's data model fixes. -/
def cardToJson (c : Card) : Json :=
  .obj [(lit "question", .str c.1), (lit "answer", .str c.2)]

/-- A flashcard sequence as the JSON array handed to `json.dump`. -/
def cardsToJson (cs : List Card) : Json := .arr (cs.map cardToJson)

/-- The JSON export text of `save_flashcards` (src/app.py lines 71-74):
`json.dump(flashcards, f, indent=2)` applied to a flashcard sequence. -/
def dumpCards (cs : List Card) : PyStr := dumpJson (cardsToJson cs) 0

/-! ### Whitespace and stripping lemmas -/

/-- The suffix `w` consists of JSON whitespace only. -/
def wsOnly (w : PyStr) : Prop := ∀ c ∈ w, isJsonWs c = true

/-- The `json` language-tag drop on the fence's middle segment
(src/app.py lines 48-49). -/
def jsonTagStrip (mid : PyStr) : PyStr :=
  if (lit "json").isPrefixOf mid then mid.drop 4 else mid

/-- A Unicode scalar value: a code point that is not a surrogate. -/
abbrev scalarChar (c : Nat) : Prop := c < 1114112 ∧ ¬(55296 ≤ c ∧ c ≤ 57343)

/-- A text of Unicode scalar values.  A Python `str` produced by any
decoded input satisfies this; lone or paired surrogate code points
(representable in a `str` but not serializable losslessly) do not. -/
abbrev scalarStr (s : PyStr) : Prop := ∀ c ∈ s, scalarChar c

/-- A flashcard whose question and answer are scalar-value texts. -/
abbrev scalarCard (cd : Card) : Prop := scalarStr cd.1 ∧ scalarStr cd.2

theorem isPyWs_of_isJsonWs {c : Nat} (h : isJsonWs c = true) : isPyWs c = true := by
  simp [isJsonWs] at h
  simp [isPyWs]
  omega

theorem skipWs_cons_not {c : Nat} (s : PyStr) (h : isJsonWs c = false) :
    skipWs (c :: s) = c :: s := by
  simp [skipWs, List.dropWhile_cons, h]

theorem skipWs_eq_nil {r : PyStr} (h : wsOnly r) : skipWs r = [] :=
  List.dropWhile_eq_nil_iff.2 h

theorem wsOnly_of_skipWs_eq_nil {r : PyStr} (h : skipWs r = []) : wsOnly r :=
  List.dropWhile_eq_nil_iff.1 h

theorem skipWs_app_allws {a : PyStr} (b : PyStr) (h : wsOnly a) :
    skipWs (a ++ b) = skipWs b := by
  simp [skipWs, List.dropWhile_append, List.dropWhile_eq_nil_iff.2 h]

theorem skipWs_app_left {a : PyStr} (b : PyStr) (h : skipWs a ≠ []) :
    skipWs (a ++ b) = skipWs a ++ b := by
  simp only [skipWs, List.dropWhile_append] at h ⊢
  rw [if_neg]
  simp only [List.isEmpty_iff]
  exact h

theorem pyLStrip_cons_not {c : Nat} (s : PyStr) (h : isPyWs c = false) :
    pyLStrip (c :: s) = c :: s := by
  simp [pyLStrip, List.dropWhile_cons, h]

theorem pyRStrip_app_last (s : PyStr) {c : Nat} (h : isPyWs c = false) :
    pyRStrip (s ++ [c]) = s ++ [c] := by
  simp [pyRStrip, List.dropWhile_cons, h]

theorem pyRStrip_append (x y : PyStr) :
    pyRStrip (x ++ y) = if pyRStrip y = [] then pyRStrip x else x ++ pyRStrip y := by
  by_cases h : pyRStrip y = []
  · have h2 : y.reverse.dropWhile isPyWs = [] := by
      have := congrArg List.reverse h
      simpa [pyRStrip] using this
    simp [pyRStrip, List.reverse_append, List.dropWhile_append, h2, h]
  · have h2 : ¬ y.reverse.dropWhile isPyWs = [] := by
      intro h3
      exact h (by simp [pyRStrip, h3])
    rw [if_neg h]
    simp only [pyRStrip, List.reverse_append, List.dropWhile_append]
    rw [if_neg (by simpa [List.isEmpty_iff] using h2)]
    simp [pyRStrip]

theorem pyStrip_allws {s : PyStr} (h : ∀ c ∈ s, isPyWs c = true) : pyStrip s = [] := by
  have h1 : pyLStrip s = [] := List.dropWhile_eq_nil_iff.2 h
  simp [pyStrip, h1, pyRStrip]

theorem pyStrip_cons_last {c d : Nat} (t : PyStr) (hc : isPyWs c = false)
    (hd : isPyWs d = false) : pyStrip (c :: t ++ [d]) = c :: t ++ [d] := by
  have h1 : pyLStrip (c :: (t ++ [d])) = c :: (t ++ [d]) := pyLStrip_cons_not _ hc
  have h2 : pyRStrip ((c :: t) ++ [d]) = (c :: t) ++ [d] := pyRStrip_app_last _ hd
  simp only [pyStrip, List.cons_append] at h1 h2 ⊢
  rw [h1, h2]

theorem dropWhile_length_le (p : Nat → Bool) (l : PyStr) :
    (l.dropWhile p).length ≤ l.length := by
  induction l with
  | nil => simp
  | cons c t ih =>
    rw [List.dropWhile_cons]
    split
    · exact le_trans ih (by simp)
    · simp

theorem length_pyStrip_le (s : PyStr) : (pyStrip s).length ≤ s.length := by
  have h1 : (pyLStrip s).length ≤ s.length := by
    simpa [pyLStrip] using dropWhile_length_le isPyWs s
  have h2 : (pyRStrip (pyLStrip s)).length ≤ (pyLStrip s).length := by
    simpa [pyRStrip] using dropWhile_length_le isPyWs (pyLStrip s).reverse
  exact le_trans h2 h1

theorem pyStrip_self_head {c : Nat} {t : PyStr} (h : pyStrip (c :: t) = c :: t) :
    isPyWs c = false := by
  by_contra hw
  have hw2 : isPyWs c = true := by
    cases hws : isPyWs c
    · exact absurd hws hw
    · rfl
  have h1 : pyLStrip (c :: t) = pyLStrip t := by simp [pyLStrip, List.dropWhile_cons, hw2]
  have h2 : (pyStrip (c :: t)).length ≤ t.length := by
    have := length_pyStrip_le t
    calc (pyStrip (c :: t)).length
        = (pyRStrip (pyLStrip t)).length := by rw [pyStrip, h1]
      _ ≤ (pyLStrip t).length := by
          simpa [pyRStrip] using dropWhile_length_le isPyWs (pyLStrip t).reverse
      _ ≤ t.length := by simpa [pyLStrip] using dropWhile_length_le isPyWs t
  rw [h] at h2
  simp at h2

/-! ### Prefix-test and fence lemmas -/

theorem ipo_app_self (p t : PyStr) : p.isPrefixOf (p ++ t) = true :=
  List.isPrefixOf_iff_prefix.2 ⟨t, rfl⟩

theorem ipo_drop {p s : PyStr} (h : p.isPrefixOf s = true) :
    s = p ++ s.drop p.length := by
  obtain ⟨r, hr⟩ := List.isPrefixOf_iff_prefix.1 h
  subst hr
  rw [List.drop_left]

theorem ipo_cons_ne {a b : Nat} (p s : PyStr) (h : a ≠ b) :
    (a :: p).isPrefixOf (b :: s) = false := by
  simp [List.isPrefixOf, h]

theorem ipo_nil_false (a : Nat) (p : PyStr) : (a :: p).isPrefixOf ([] : PyStr) = false := by
  simp [List.isPrefixOf]

theorem ticks_ipo_mem {s : PyStr} (h : ticks.isPrefixOf s = true) : 96 ∈ s := by
  have h2 := ipo_drop h
  rw [h2]
  simp [ticks]

theorem findSub_boundary {pre : PyStr} (z : PyStr) (h : 96 ∉ pre) :
    findSub ticks (pre ++ ticks ++ z) = some pre.length := by
  induction pre with
  | nil =>
    simp only [List.nil_append]
    show findSub ticks (96 :: 96 :: 96 :: z) = some 0
    simp [findSub, ticks, List.isPrefixOf]
  | cons c t ih =>
    have hc : c ≠ 96 := fun hc => h (by simp [hc])
    have ht : 96 ∉ t := fun hm => h (by simp [hm])
    show findSub ticks (c :: (t ++ ticks ++ z)) = some (t.length + 1)
    rw [findSub]
    have hni : ticks.isPrefixOf (c :: (t ++ ticks ++ z)) = false := by
      simpa [ticks] using ipo_cons_ne [96, 96] (t ++ ticks ++ z) (fun hx => hc hx.symm)
    rw [hni]
    simp only [if_neg Bool.false_ne_true]
    rw [ih ht]
    rfl

/-! ### String-scan extension lemmas -/

theorem scanStrF_nil (f : Nat) : scanStrF f [] = none := by
  cases f <;> simp [scanStrF]

theorem scanStrF_bs1 (f : Nat) : scanStrF f [92] = none := by
  cases f <;> simp [scanStrF, unescChar, scanStrF_nil]

theorem scanStrF_u0 (f : Nat) : scanStrF f [92, 117] = none := by
  cases f <;> simp [scanStrF, unescChar]

theorem scanStrF_u1 (f x : Nat) : scanStrF f [92, 117, x] = none := by
  cases f <;> simp [scanStrF, unescChar]

theorem scanStrF_u2 (f x y : Nat) : scanStrF f [92, 117, x, y] = none := by
  cases f <;> simp [scanStrF, unescChar]

theorem scanStrF_u3 (f x y z : Nat) : scanStrF f [92, 117, x, y, z] = none := by
  cases f <;> simp [scanStrF, unescChar]


theorem scanStrF_quote (f : Nat) (rest : PyStr) :
    scanStrF (f + 1) (34 :: rest) = some ([], rest) := by
  simp [scanStrF]

theorem scanStrF_pair (f a b c d a2 b2 c2 d2 : Nat) (rest2 : PyStr) {n m : Nat}
    (h1 : hex4 a b c d = some n) (hr1 : 55296 ≤ n ∧ n ≤ 56319)
    (h2 : hex4 a2 b2 c2 d2 = some m) (hr2 : 56320 ≤ m ∧ m ≤ 57343) :
    scanStrF (f + 1) (92 :: 117 :: a :: b :: c :: d :: 92 :: 117 :: a2 :: b2 :: c2 :: d2 :: rest2) =
      (scanStrF f rest2).map
        (fun p => ((65536 + (n - 55296) * 1024 + (m - 56320)) :: p.1, p.2)) := by
  simp only [scanStrF]
  rw [h1]
  simp only [if_pos hr1]
  rw [h2]
  simp only [if_pos hr2]

theorem scanStrF_noPair (f a b c d a2 b2 c2 d2 : Nat) (rest2 : PyStr) {n m : Nat}
    (h1 : hex4 a b c d = some n) (hr1 : 55296 ≤ n ∧ n ≤ 56319)
    (h2 : hex4 a2 b2 c2 d2 = some m) (hr2 : ¬(56320 ≤ m ∧ m ≤ 57343)) :
    scanStrF (f + 1) (92 :: 117 :: a :: b :: c :: d :: 92 :: 117 :: a2 :: b2 :: c2 :: d2 :: rest2) =
      (scanStrF f (92 :: 117 :: a2 :: b2 :: c2 :: d2 :: rest2)).map
        (fun p => (n :: p.1, p.2)) := by
  simp only [scanStrF]
  rw [h1]
  simp only [if_pos hr1]
  rw [h2]
  simp only [if_neg hr2]

theorem scanStrF_pairBad (f a b c d a2 b2 c2 d2 : Nat) (rest2 : PyStr) {n : Nat}
    (h1 : hex4 a b c d = some n) (hr1 : 55296 ≤ n ∧ n ≤ 56319)
    (h2 : hex4 a2 b2 c2 d2 = none) :
    scanStrF (f + 1) (92 :: 117 :: a :: b :: c :: d :: 92 :: 117 :: a2 :: b2 :: c2 :: d2 :: rest2) =
      none := by
  simp only [scanStrF]
  rw [h1]
  simp only [if_pos hr1]
  rw [h2]

theorem scanStrF_hiPlain (f a b c d c1 : Nat) (t : PyStr) {n : Nat}
    (h1 : hex4 a b c d = some n) (hr1 : 55296 ≤ n ∧ n ≤ 56319) (hc1 : c1 ≠ 92) :
    scanStrF (f + 1) (92 :: 117 :: a :: b :: c :: d :: c1 :: t) =
      (scanStrF f (c1 :: t)).map (fun p => (n :: p.1, p.2)) := by
  simp only [scanStrF]
  rw [h1]
  simp only [if_pos hr1]
  simp [hc1]

theorem scanStrF_hiEsc (f a b c d e : Nat) (t : PyStr) {n : Nat}
    (h1 : hex4 a b c d = some n) (hr1 : 55296 ≤ n ∧ n ≤ 56319) (he : e ≠ 117) :
    scanStrF (f + 1) (92 :: 117 :: a :: b :: c :: d :: 92 :: e :: t) =
      (scanStrF f (92 :: e :: t)).map (fun p => (n :: p.1, p.2)) := by
  simp only [scanStrF]
  rw [h1]
  simp only [if_pos hr1]
  simp [he]

theorem scanStrF_noHi (f a b c d : Nat) (rest : PyStr) {n : Nat}
    (h1 : hex4 a b c d = some n) (hr1 : ¬(55296 ≤ n ∧ n ≤ 56319)) :
    scanStrF (f + 1) (92 :: 117 :: a :: b :: c :: d :: rest) =
      (scanStrF f rest).map (fun p => (n :: p.1, p.2)) := by
  simp only [scanStrF]
  rw [h1]
  simp only [if_neg hr1]

theorem scanStrF_hexBad (f a b c d : Nat) (rest : PyStr)
    (h1 : hex4 a b c d = none) :
    scanStrF (f + 1) (92 :: 117 :: a :: b :: c :: d :: rest) = none := by
  simp only [scanStrF]
  rw [h1]

theorem scanStrF_esc (f e : Nat) (rest : PyStr) (he : e ≠ 117) :
    scanStrF (f + 1) (92 :: e :: rest) =
      match unescChar e with
      | some u => (scanStrF f rest).map (fun p => (u :: p.1, p.2))
      | none => none := by
  rcases rest with _ | ⟨x, t⟩
  · simp [scanStrF, he]
  · simp [scanStrF, he]

theorem scanStrF_plain (f c : Nat) (rest : PyStr) (h34 : c ≠ 34) (h92 : c ≠ 92) :
    scanStrF (f + 1) (c :: rest) =
      if c < 32 then none else (scanStrF f rest).map (fun p => (c :: p.1, p.2)) := by
  simp [scanStrF, h34, h92]

/-- Appending a suffix after a successfully scanned string body does not
change the scan: the scan is delimited by its closing quote.  Fuel may
also grow. -/
theorem scanStrF_ext (w : PyStr) :
    ∀ (f : Nat) (a : PyStr), ∀ cs r f', scanStrF f a = some (cs, r) → f ≤ f' →
      scanStrF f' (a ++ w) = some (cs, r ++ w) := by
  intro f a
  induction f, a using scanStrF.induct with
  | case1 x =>
    intro cs r f' hsome _
    simp [scanStrF] at hsome
  | case2 n =>
    intro cs r f' hsome _
    simp [scanStrF] at hsome
  | case3 n rest =>
    intro cs r f' hsome hle
    obtain ⟨g', rfl⟩ : ∃ g', f' = g' + 1 := ⟨f' - 1, by omega⟩
    rw [scanStrF_quote] at hsome
    have hp := Option.some.inj hsome
    injection hp with h1 h2
    subst h1
    subst h2
    simp only [List.cons_append]
    rw [scanStrF_quote]
  | case4 fuel a b c d rest hhex =>
    intro cs r f' hsome _
    rw [scanStrF_hexBad _ _ _ _ _ _ hhex] at hsome
    cases hsome
  | case5 fuel a b c d m hhex hrange a2 b2 c2 d2 rest2 hhex2 =>
    intro cs r f' hsome _
    rw [scanStrF_pairBad _ _ _ _ _ _ _ _ _ _ hhex hrange hhex2] at hsome
    cases hsome
  | case6 fuel a b c d m hhex hrange a2 b2 c2 d2 rest2 m2 hhex2 hrange2 ih =>
    intro cs r f' hsome hle
    obtain ⟨g', rfl⟩ : ∃ g', f' = g' + 1 := ⟨f' - 1, by omega⟩
    rw [scanStrF_pair _ _ _ _ _ _ _ _ _ _ hhex hrange hhex2 hrange2] at hsome
    rcases hsc : scanStrF fuel rest2 with _ | ⟨⟨cs2, r2⟩⟩
    · rw [hsc] at hsome
      cases hsome
    · rw [hsc] at hsome
      simp only [Option.map_some'] at hsome
      have hp := Option.some.inj hsome
      injection hp with h1 h2
      subst h1
      subst h2
      have hih := ih cs2 r2 g' hsc (by omega)
      simp only [List.cons_append]
      rw [scanStrF_pair _ _ _ _ _ _ _ _ _ _ hhex hrange hhex2 hrange2, hih]
      rfl
  | case7 fuel a b c d m hhex hrange a2 b2 c2 d2 rest2 m2 hhex2 hrange2 ih =>
    intro cs r f' hsome hle
    obtain ⟨g', rfl⟩ : ∃ g', f' = g' + 1 := ⟨f' - 1, by omega⟩
    rw [scanStrF_noPair _ _ _ _ _ _ _ _ _ _ hhex hrange hhex2 hrange2] at hsome
    rcases hsc : scanStrF fuel (92 :: 117 :: a2 :: b2 :: c2 :: d2 :: rest2) with _ | ⟨⟨cs2, r2⟩⟩
    · rw [hsc] at hsome
      cases hsome
    · rw [hsc] at hsome
      simp only [Option.map_some'] at hsome
      have hp := Option.some.inj hsome
      injection hp with h1 h2
      subst h1
      subst h2
      have hih := ih cs2 r2 g' hsc (by omega)
      simp only [List.cons_append] at hih ⊢
      rw [scanStrF_noPair _ _ _ _ _ _ _ _ _ _ hhex hrange hhex2 hrange2, hih]
      rfl
  | case8 fuel a b c d rest m hhex hrange hnot ih =>
    intro cs r f' hsome hle
    obtain ⟨g', rfl⟩ : ∃ g', f' = g' + 1 := ⟨f' - 1, by omega⟩
    rcases rest with _ | ⟨c1, t1⟩
    · simp only [scanStrF] at hsome
      rw [hhex] at hsome
      simp only [if_pos hrange, scanStrF_nil, Option.map_none'] at hsome
      exact Option.noConfusion hsome
    · by_cases hc1 : c1 = 92
      · subst hc1
        rcases t1 with _ | ⟨e, t2⟩
        · simp only [scanStrF] at hsome
          rw [hhex] at hsome
          simp only [if_pos hrange, scanStrF_bs1, Option.map_none'] at hsome
          exact Option.noConfusion hsome
        · by_cases he : e = 117
          · subst he
            rcases t2 with _ | ⟨x, t3⟩
            · simp only [scanStrF] at hsome
              rw [hhex] at hsome
              simp only [if_pos hrange, scanStrF_u0, Option.map_none'] at hsome
              exact Option.noConfusion hsome
            · rcases t3 with _ | ⟨y, t4⟩
              · simp only [scanStrF] at hsome
                rw [hhex] at hsome
                simp only [if_pos hrange, scanStrF_u1, Option.map_none'] at hsome
                exact Option.noConfusion hsome
              · rcases t4 with _ | ⟨z, t5⟩
                · simp only [scanStrF] at hsome
                  rw [hhex] at hsome
                  simp only [if_pos hrange, scanStrF_u2, Option.map_none'] at hsome
                  exact Option.noConfusion hsome
                · rcases t5 with _ | ⟨v, t6⟩
                  · simp only [scanStrF] at hsome
                    rw [hhex] at hsome
                    simp only [if_pos hrange, scanStrF_u3, Option.map_none'] at hsome
                    exact Option.noConfusion hsome
                  · exact (hnot x y z v t6 rfl).elim
          · rw [scanStrF_hiEsc _ _ _ _ _ _ _ hhex hrange he] at hsome
            rcases hsc : scanStrF fuel (92 :: e :: t2) with _ | ⟨⟨cs2, r2⟩⟩
            · rw [hsc] at hsome
              cases hsome
            · rw [hsc] at hsome
              simp only [Option.map_some'] at hsome
              have hp := Option.some.inj hsome
              injection hp with h1 h2
              subst h1
              subst h2
              have hih := ih cs2 r2 g' hsc (by omega)
              simp only [List.cons_append] at hih ⊢
              rw [scanStrF_hiEsc _ _ _ _ _ _ _ hhex hrange he, hih]
              rfl
      · rw [scanStrF_hiPlain _ _ _ _ _ _ _ hhex hrange hc1] at hsome
        rcases hsc : scanStrF fuel (c1 :: t1) with _ | ⟨⟨cs2, r2⟩⟩
        · rw [hsc] at hsome
          cases hsome
        · rw [hsc] at hsome
          simp only [Option.map_some'] at hsome
          have hp := Option.some.inj hsome
          injection hp with h1 h2
          subst h1
          subst h2
          have hih := ih cs2 r2 g' hsc (by omega)
          simp only [List.cons_append] at hih ⊢
          rw [scanStrF_hiPlain _ _ _ _ _ _ _ hhex hrange hc1, hih]
          rfl
  | case9 fuel a b c d rest m hhex hrange ih =>
    intro cs r f' hsome hle
    obtain ⟨g', rfl⟩ : ∃ g', f' = g' + 1 := ⟨f' - 1, by omega⟩
    rw [scanStrF_noHi _ _ _ _ _ _ hhex hrange] at hsome
    rcases hsc : scanStrF fuel rest with _ | ⟨⟨cs2, r2⟩⟩
    · rw [hsc] at hsome
      cases hsome
    · rw [hsc] at hsome
      simp only [Option.map_some'] at hsome
      have hp := Option.some.inj hsome
      injection hp with h1 h2
      subst h1
      subst h2
      have hih := ih cs2 r2 g' hsc (by omega)
      simp only [List.cons_append] at hih ⊢
      rw [scanStrF_noHi _ _ _ _ _ _ hhex hrange, hih]
      rfl
  | case10 fuel e rest hnot u huna ih =>
    intro cs r f' hsome hle
    obtain ⟨g', rfl⟩ : ∃ g', f' = g' + 1 := ⟨f' - 1, by omega⟩
    have he : e ≠ 117 := by
      intro h
      subst h
      simp [unescChar] at huna
    rw [scanStrF_esc _ _ _ he, huna] at hsome
    rcases hsc : scanStrF fuel rest with _ | ⟨⟨cs2, r2⟩⟩
    · rw [hsc] at hsome
      cases hsome
    · rw [hsc] at hsome
      simp only [Option.map_some'] at hsome
      have hp := Option.some.inj hsome
      injection hp with h1 h2
      subst h1
      subst h2
      have hih := ih cs2 r2 g' hsc (by omega)
      simp only [List.cons_append] at hih ⊢
      rw [scanStrF_esc _ _ _ he, huna, hih]
      rfl
  | case11 fuel e rest hnot huna =>
    intro cs r f' hsome _
    have he : e ≠ 117 := by
      intro h
      subst h
      rcases rest with _ | ⟨x, t⟩
      · exact absurd (scanStrF_u0 (fuel + 1)) (by rw [show ([92, 117] : PyStr) =
          92 :: 117 :: ([] : PyStr) from rfl] at hsome ⊢; rw [hsome]; simp)
      · rcases t with _ | ⟨y, t2⟩
        · exact absurd (scanStrF_u1 (fuel + 1) x) (by
            rw [show ([92, 117, x] : PyStr) = 92 :: 117 :: x :: ([] : PyStr) from rfl] at hsome ⊢
            rw [hsome]; simp)
        · rcases t2 with _ | ⟨z, t3⟩
          · exact absurd (scanStrF_u2 (fuel + 1) x y) (by
              rw [show ([92, 117, x, y] : PyStr) =
                92 :: 117 :: x :: y :: ([] : PyStr) from rfl] at hsome ⊢
              rw [hsome]; simp)
          · rcases t3 with _ | ⟨v, t4⟩
            · exact absurd (scanStrF_u3 (fuel + 1) x y z) (by
                rw [show ([92, 117, x, y, z] : PyStr) =
                  92 :: 117 :: x :: y :: z :: ([] : PyStr) from rfl] at hsome ⊢
                rw [hsome]; simp)
            · exact hnot x y z v t4 rfl rfl
    rw [scanStrF_esc _ _ _ he, huna] at hsome
    cases hsome
  | case12 fuel c rest h34 hnot6 hnot2 hlt =>
    intro cs r f' hsome _
    have hc34 : c ≠ 34 := fun h => h34 h
    have hc92 : c ≠ 92 := by
      intro h
      subst h
      rcases rest with _ | ⟨e, t⟩
      · exact absurd (scanStrF_bs1 (fuel + 1)) (by
          rw [show ([92] : PyStr) = 92 :: ([] : PyStr) from rfl] at hsome ⊢
          rw [hsome]; simp)
      · exact hnot2 e t rfl rfl
    rw [scanStrF_plain _ _ _ hc34 hc92, if_pos hlt] at hsome
    cases hsome
  | case13 fuel c rest h34 hnot6 hnot2 hlt ih =>
    intro cs r f' hsome hle
    obtain ⟨g', rfl⟩ : ∃ g', f' = g' + 1 := ⟨f' - 1, by omega⟩
    have hc34 : c ≠ 34 := fun h => h34 h
    have hc92 : c ≠ 92 := by
      intro h
      subst h
      rcases rest with _ | ⟨e, t⟩
      · exact absurd (scanStrF_bs1 (fuel + 1)) (by
          rw [show ([92] : PyStr) = 92 :: ([] : PyStr) from rfl] at hsome ⊢
          rw [hsome]; simp)
      · exact hnot2 e t rfl rfl
    rw [scanStrF_plain _ _ _ hc34 hc92, if_neg hlt] at hsome
    rcases hsc : scanStrF fuel rest with _ | ⟨⟨cs2, r2⟩⟩
    · rw [hsc] at hsome
      cases hsome
    · rw [hsc] at hsome
      simp only [Option.map_some'] at hsome
      have hp := Option.some.inj hsome
      injection hp with h1 h2
      subst h1
      subst h2
      have hih := ih cs2 r2 g' hsc (by omega)
      simp only [List.cons_append] at hih ⊢
      rw [scanStrF_plain _ _ _ hc34 hc92, if_neg hlt, hih]
      rfl

theorem scanStr_ext {a cs r : PyStr} (w : PyStr) (h : scanStr a = some (cs, r)) :
    scanStr (a ++ w) = some (cs, r ++ w) := by
  have := scanStrF_ext w (a.length + 1) a cs r ((a ++ w).length + 1) h (by simp)
  exact this

/-! ### Number-token extension lemmas -/

theorem jsonWs_vals {c : Nat} (h : isJsonWs c = true) :
    c = 32 ∨ c = 9 ∨ c = 10 ∨ c = 13 := by
  simp [isJsonWs] at h
  omega

theorem jsonWs_not_digit {c : Nat} (h : isJsonWs c = true) : isDigit c = false := by
  rcases jsonWs_vals h with rfl | rfl | rfl | rfl <;> rfl

theorem munch_cons_digit {c : Nat} (t : PyStr) (hc : isDigit c = true) :
    munchDigits (c :: t) = (c :: (munchDigits t).1, (munchDigits t).2) := by
  rw [munchDigits, if_pos hc]

theorem munch_cons_not {c : Nat} (t : PyStr) (hc : isDigit c = false) :
    munchDigits (c :: t) = ([], c :: t) := by
  rw [munchDigits, if_neg (by simp [hc])]

theorem munch_app {w : PyStr} (hw : wsOnly w) :
    ∀ (a ds r : PyStr), munchDigits a = (ds, r) → munchDigits (a ++ w) = (ds, r ++ w) := by
  intro a
  induction a with
  | nil =>
    intro ds r h
    have h2 : (([], []) : PyStr × PyStr) = (ds, r) := h
    injection h2 with hd hr
    subst hd
    subst hr
    simp only [List.nil_append]
    rcases w with _ | ⟨x, t⟩
    · rfl
    · exact munch_cons_not t (jsonWs_not_digit (hw x (by simp)))
  | cons c t ih =>
    intro ds r h
    by_cases hc : isDigit c = true
    · rw [munch_cons_digit t hc] at h
      injection h with hd hr
      subst hd
      subst hr
      have hm := ih (munchDigits t).1 (munchDigits t).2 rfl
      simp only [List.cons_append]
      rw [munch_cons_digit (t ++ w) hc, hm]
    · have hc2 : isDigit c = false := by
        cases hx : isDigit c
        · rfl
        · exact absurd hx hc
      rw [munch_cons_not t hc2] at h
      injection h with hd hr
      subst hd
      subst hr
      simp only [List.cons_append]
      rw [munch_cons_not (t ++ w) hc2]

theorem parseIntPart_app {w : PyStr} (hw : wsOnly w) {s ip r : PyStr}
    (h : parseIntPart s = some (ip, r)) : parseIntPart (s ++ w) = some (ip, r ++ w) := by
  rcases s with _ | ⟨c, t⟩
  · exact absurd h (by rw [parseIntPart]; simp)
  · rw [parseIntPart] at h
    by_cases hc : c = 48
    · rw [if_pos hc] at h
      have hp := Option.some.inj h
      injection hp with h1 h2
      subst h2
      simp only [List.cons_append]
      rw [parseIntPart, if_pos hc, ← h1]
    · rw [if_neg hc] at h
      by_cases hd : isDigit c = true
      · rw [if_pos hd] at h
        have hp := Option.some.inj h
        injection hp with h1 h2
        subst h1
        subst h2
        have hm := munch_app hw t (munchDigits t).1 (munchDigits t).2 rfl
        simp only [List.cons_append]
        rw [parseIntPart, if_neg hc, if_pos hd, hm]
      · rw [if_neg hd] at h
        cases h

theorem parseIntPart_none_head {c : Nat} (t : PyStr) (hd : isDigit c = false) :
    parseIntPart (c :: t) = none := by
  have hc : c ≠ 48 := by
    intro hx
    subst hx
    cases hd
  rw [parseIntPart, if_neg hc, if_neg (by simp [hd])]

theorem parseFrac_two (d : Nat) (t : PyStr) :
    parseFrac (46 :: d :: t) =
      if isDigit d = true then (46 :: (munchDigits (d :: t)).1, (munchDigits (d :: t)).2)
      else ([], 46 :: d :: t) := rfl

theorem parseFrac_head_ne {c : Nat} (t : PyStr) (hc : c ≠ 46) :
    parseFrac (c :: t) = ([], c :: t) := by
  rcases t with _ | ⟨d, t2⟩
  · rw [parseFrac.eq_def]
    split
    · next _ _ heq =>
        injection heq with he1 he2
        exact absurd he1 hc
    · rfl
  · rw [parseFrac.eq_def]
    split
    · next _ _ heq =>
        injection heq with he1 he2
        exact absurd he1 hc
    · rfl

theorem parseFrac_ws {w : PyStr} (hw : wsOnly w) : parseFrac w = ([], w) := by
  rcases w with _ | ⟨x, t⟩
  · rfl
  · have hx : x ≠ 46 := by
      rcases jsonWs_vals (hw x (by simp)) with rfl | rfl | rfl | rfl <;> omega
    exact parseFrac_head_ne t hx

theorem parseFrac_app {w : PyStr} (hw : wsOnly w) :
    ∀ (s p r : PyStr), parseFrac s = (p, r) → parseFrac (s ++ w) = (p, r ++ w) := by
  intro s p r h
  rcases s with _ | ⟨c, t⟩
  · have h2 : (([], []) : PyStr × PyStr) = (p, r) := h
    injection h2 with hp hr
    subst hp
    subst hr
    simp only [List.nil_append]
    exact parseFrac_ws hw
  · by_cases hc : c = 46
    · subst hc
      rcases t with _ | ⟨d, t2⟩
      · have h2 : (([], [46]) : PyStr × PyStr) = (p, r) := h
        injection h2 with hp hr
        subst hp
        subst hr
        simp only [List.cons_append, List.nil_append]
        rcases w with _ | ⟨x, t3⟩
        · rfl
        · rw [parseFrac_two, if_neg (by simp [jsonWs_not_digit (hw x (by simp))])]
      · rw [parseFrac_two] at h
        by_cases hd : isDigit d = true
        · rw [if_pos hd] at h
          injection h with hp hr
          subst hp
          subst hr
          have hm := munch_app hw (d :: t2) (munchDigits (d :: t2)).1 (munchDigits (d :: t2)).2 rfl
          simp only [List.cons_append] at hm ⊢
          rw [parseFrac_two, if_pos hd, hm]
        · rw [if_neg hd] at h
          injection h with hp hr
          subst hp
          subst hr
          simp only [List.cons_append]
          rw [parseFrac_two, if_neg hd]
    · rw [parseFrac_head_ne t hc] at h
      injection h with hp hr
      subst hp
      subst hr
      simp only [List.cons_append]
      rw [parseFrac_head_ne (t ++ w) hc]

theorem parseExp_two (e c : Nat) (t : PyStr) :
    parseExp (e :: c :: t) =
      if e = 101 ∨ e = 69 then
        if isDigit c = true then (e :: (munchDigits (c :: t)).1, (munchDigits (c :: t)).2)
        else if c = 43 ∨ c = 45 then
          match t with
          | d :: _ =>
            if isDigit d = true then (e :: c :: (munchDigits t).1, (munchDigits t).2)
            else ([], e :: c :: t)
          | [] => ([], e :: c :: t)
        else ([], e :: c :: t)
      else ([], e :: c :: t) := rfl

theorem parseExp_one (e : Nat) : parseExp [e] = ([], [e]) := rfl

theorem parseExp_ws {w : PyStr} (hw : wsOnly w) : parseExp w = ([], w) := by
  rcases w with _ | ⟨x, t⟩
  · rfl
  · have hx : ¬(x = 101 ∨ x = 69) := by
      rcases jsonWs_vals (hw x (by simp)) with rfl | rfl | rfl | rfl <;> omega
    rcases t with _ | ⟨y, t2⟩
    · rfl
    · rw [parseExp_two, if_neg hx]

theorem parseExp_app {w : PyStr} (hw : wsOnly w) :
    ∀ (s p r : PyStr), parseExp s = (p, r) → parseExp (s ++ w) = (p, r ++ w) := by
  intro s p r h
  rcases s with _ | ⟨e, t⟩
  · have h2 : (([], []) : PyStr × PyStr) = (p, r) := h
    injection h2 with hp hr
    subst hp
    subst hr
    simp only [List.nil_append]
    exact parseExp_ws hw
  · rcases t with _ | ⟨c, t2⟩
    · have h2 : (([], [e]) : PyStr × PyStr) = (p, r) := h
      injection h2 with hp hr
      subst hp
      subst hr
      simp only [List.cons_append, List.nil_append]
      by_cases he : e = 101 ∨ e = 69
      · rcases w with _ | ⟨x, t3⟩
        · rfl
        · have hx1 : isDigit x = false := jsonWs_not_digit (hw x (by simp))
          have hx2 : ¬(x = 43 ∨ x = 45) := by
            rcases jsonWs_vals (hw x (by simp)) with rfl | rfl | rfl | rfl <;> omega
          rcases t3 with _ | ⟨y, t4⟩
          · rw [parseExp_two, if_pos he, if_neg (by simp [hx1]), if_neg hx2]
          · rw [parseExp_two, if_pos he, if_neg (by simp [hx1]), if_neg hx2]
      · rcases w with _ | ⟨x, t3⟩
        · rfl
        · rw [parseExp_two, if_neg he]
    · rw [parseExp_two] at h
      by_cases he : e = 101 ∨ e = 69
      · rw [if_pos he] at h
        by_cases hc : isDigit c = true
        · rw [if_pos hc] at h
          injection h with hp hr
          subst hp
          subst hr
          have hm := munch_app hw (c :: t2) (munchDigits (c :: t2)).1 (munchDigits (c :: t2)).2 rfl
          simp only [List.cons_append] at hm ⊢
          rw [parseExp_two, if_pos he, if_pos hc, hm]
        · rw [if_neg hc] at h
          by_cases hsgn : c = 43 ∨ c = 45
          · rw [if_pos hsgn] at h
            rcases t2 with _ | ⟨d, t3⟩
            · simp only at h
              injection h with hp hr
              subst hp
              subst hr
              simp only [List.cons_append, List.nil_append]
              rw [parseExp_two, if_pos he, if_neg hc, if_pos hsgn]
              rcases w with _ | ⟨x, t4⟩
              · rfl
              · simp only
                rw [if_neg (by simp [jsonWs_not_digit (hw x (by simp))])]
            · simp only at h
              by_cases hd : isDigit d = true
              · rw [if_pos hd] at h
                injection h with hp hr
                subst hp
                subst hr
                have hm := munch_app hw (d :: t3) (munchDigits (d :: t3)).1 (munchDigits (d :: t3)).2 rfl
                simp only [List.cons_append] at hm ⊢
                rw [parseExp_two, if_pos he, if_neg hc, if_pos hsgn]
                simp only
                rw [if_pos hd, hm]
              · rw [if_neg hd] at h
                injection h with hp hr
                subst hp
                subst hr
                simp only [List.cons_append]
                rw [parseExp_two, if_pos he, if_neg hc, if_pos hsgn]
                simp only
                rw [if_neg hd]
          · rw [if_neg hsgn] at h
            injection h with hp hr
            subst hp
            subst hr
            simp only [List.cons_append]
            rw [parseExp_two, if_pos he, if_neg hc, if_neg hsgn]
      · rw [if_neg he] at h
        injection h with hp hr
        subst hp
        subst hr
        simp only [List.cons_append]
        rw [parseExp_two, if_neg he]

theorem parseNum_cons45 (t : PyStr) :
    parseNum (45 :: t) =
      match parseIntPart t with
      | none => none
      | some (ip, r1) =>
        some (45 :: (ip ++ (parseFrac r1).1 ++ (parseExp (parseFrac r1).2).1),
          (parseExp (parseFrac r1).2).2) := rfl

theorem parseNum_head_ne {c : Nat} (t : PyStr) (hc : c ≠ 45) :
    parseNum (c :: t) =
      match parseIntPart (c :: t) with
      | none => none
      | some (ip, r1) =>
        some (ip ++ (parseFrac r1).1 ++ (parseExp (parseFrac r1).2).1,
          (parseExp (parseFrac r1).2).2) := by
  rw [parseNum.eq_def]
  split
  · next heq =>
      injection heq with he1 he2
      exact absurd he1 hc
  · rfl

theorem parseNum_app {w : PyStr} (hw : wsOnly w) {s raw r : PyStr}
    (h : parseNum s = some (raw, r)) : parseNum (s ++ w) = some (raw, r ++ w) := by
  rcases s with _ | ⟨c, t⟩
  · exact absurd h (by rw [show parseNum [] = none from rfl]; simp)
  · by_cases hc : c = 45
    · subst hc
      rw [parseNum_cons45] at h
      rcases hip : parseIntPart t with _ | ⟨⟨ip, r1⟩⟩
      · rw [hip] at h
        cases h
      · rw [hip] at h
        simp only at h
        have hp := Option.some.inj h
        injection hp with h1 h2
        subst h1
        subst h2
        have hipw := parseIntPart_app hw hip
        have hfw := parseFrac_app hw r1 (parseFrac r1).1 (parseFrac r1).2 rfl
        have hew := parseExp_app hw (parseFrac r1).2 (parseExp (parseFrac r1).2).1
          (parseExp (parseFrac r1).2).2 rfl
        simp only [List.cons_append]
        rw [parseNum_cons45, hipw]
        simp only
        rw [hfw, hew]
    · rw [parseNum_head_ne t hc] at h
      rcases hip : parseIntPart (c :: t) with _ | ⟨⟨ip, r1⟩⟩
      · rw [hip] at h
        cases h
      · rw [hip] at h
        simp only at h
        have hp := Option.some.inj h
        injection hp with h1 h2
        subst h1
        subst h2
        have hipw := parseIntPart_app hw hip
        have hfw := parseFrac_app hw r1 (parseFrac r1).1 (parseFrac r1).2 rfl
        have hew := parseExp_app hw (parseFrac r1).2 (parseExp (parseFrac r1).2).1
          (parseExp (parseFrac r1).2).2 rfl
        simp only [List.cons_append] at hipw ⊢
        rw [parseNum_head_ne (t ++ w) hc, hipw]
        simp only
        rw [hfw, hew]

theorem parseNum_none_head {c : Nat} (t : PyStr) (hc : c ≠ 45) (hd : isDigit c = false) :
    parseNum (c :: t) = none := by
  rw [parseNum_head_ne t hc, parseIntPart_none_head t hd]

theorem parseNum_head {s raw r : PyStr} (h : parseNum s = some (raw, r)) :
    ∃ c t, s = c :: t ∧ (c = 45 ∨ isDigit c = true) := by
  rcases s with _ | ⟨c, t⟩
  · exact absurd h (by rw [show parseNum [] = none from rfl]; simp)
  · refine ⟨c, t, rfl, ?_⟩
    by_cases hc : c = 45
    · exact Or.inl hc
    · by_cases hd : isDigit c = true
      · exact Or.inr hd
      · rw [parseNum_none_head t hc (by cases hx : isDigit c; rfl; exact absurd hx hd)] at h
        cases h

/-! ### Scanner route lemmas -/

theorem parseVal_nil : ∀ f, parseVal f ([] : PyStr) = none := by
  intro f
  cases f <;> rfl

theorem parseArrElems_nil : ∀ f, parseArrElems f ([] : PyStr) = none := by
  intro f
  cases f with
  | zero => rfl
  | succ g => rw [parseArrElems, parseVal_nil]

theorem parseObjMembers_nil : ∀ f, parseObjMembers f ([] : PyStr) = none := by
  intro f
  cases f <;> rfl

theorem parseVal_quote (f : Nat) (s : PyStr) :
    parseVal (f + 1) (34 :: s) =
      match scanStr s with
      | some (cs, r) => some (.str cs, r)
      | none => none := by
  simp [parseVal]

theorem parseVal_obj (f : Nat) (s : PyStr) :
    parseVal (f + 1) (123 :: s) =
      match skipWs s with
      | 125 :: r => some (.obj [], r)
      | s2 =>
        match parseObjMembers f s2 with
        | some (ms, r) => some (.obj ms, r)
        | none => none := by
  simp [parseVal]

theorem parseVal_arr (f : Nat) (s : PyStr) :
    parseVal (f + 1) (91 :: s) =
      match skipWs s with
      | 93 :: r => some (.arr [], r)
      | s2 =>
        match parseArrElems f s2 with
        | some (vs, r) => some (.arr vs, r)
        | none => none := by
  simp [parseVal]

theorem parseVal_n (f : Nat) (s : PyStr) :
    parseVal (f + 1) (110 :: s) =
      if (lit "null").isPrefixOf (110 :: s) then some (.null, (110 :: s).drop 4)
      else none := by
  have hnum : parseNum (110 :: s) = none := parseNum_none_head s (by omega) rfl
  simp [parseVal, hnum, lit, List.isPrefixOf]

theorem parseVal_t (f : Nat) (s : PyStr) :
    parseVal (f + 1) (116 :: s) =
      if (lit "true").isPrefixOf (116 :: s) then some (.bool true, (116 :: s).drop 4)
      else none := by
  have hnum : parseNum (116 :: s) = none := parseNum_none_head s (by omega) rfl
  simp [parseVal, hnum, lit, List.isPrefixOf]

theorem parseVal_fa (f : Nat) (s : PyStr) :
    parseVal (f + 1) (102 :: s) =
      if (lit "false").isPrefixOf (102 :: s) then some (.bool false, (102 :: s).drop 5)
      else none := by
  have hnum : parseNum (102 :: s) = none := parseNum_none_head s (by omega) rfl
  simp [parseVal, hnum, lit, List.isPrefixOf]

theorem parseVal_nan (f : Nat) (s : PyStr) :
    parseVal (f + 1) (78 :: s) =
      if (lit "NaN").isPrefixOf (78 :: s) then some (.num (lit "NaN"), (78 :: s).drop 3)
      else none := by
  have hnum : parseNum (78 :: s) = none := parseNum_none_head s (by omega) rfl
  simp [parseVal, hnum, lit, List.isPrefixOf]

theorem parseVal_inf (f : Nat) (s : PyStr) :
    parseVal (f + 1) (73 :: s) =
      if (lit "Infinity").isPrefixOf (73 :: s) then
        some (.num (lit "Infinity"), (73 :: s).drop 8)
      else none := by
  have hnum : parseNum (73 :: s) = none := parseNum_none_head s (by omega) rfl
  simp [parseVal, hnum, lit, List.isPrefixOf]

theorem parseVal_dash (f : Nat) (s : PyStr) :
    parseVal (f + 1) (45 :: s) =
      match parseNum (45 :: s) with
      | some (raw, r) => some (.num raw, r)
      | none =>
        if (lit "-Infinity").isPrefixOf (45 :: s) then
          some (.num (lit "-Infinity"), (45 :: s).drop 9)
        else none := by
  simp [parseVal, lit, List.isPrefixOf]

theorem parseVal_digit (f : Nat) {c : Nat} (s : PyStr) (hd : isDigit c = true) :
    parseVal (f + 1) (c :: s) =
      match parseNum (c :: s) with
      | some (raw, r) => some (.num raw, r)
      | none => none := by
  have hc : 48 ≤ c ∧ c ≤ 57 := by
    simp [isDigit] at hd
    omega
  have h34 : c ≠ 34 := by omega
  have h123 : c ≠ 123 := by omega
  have h91 : c ≠ 91 := by omega
  have h110 : c ≠ 110 := by omega
  have h116 : c ≠ 116 := by omega
  have h102 : c ≠ 102 := by omega
  have h78 : c ≠ 78 := by omega
  have h73 : c ≠ 73 := by omega
  have h45 : c ≠ 45 := by omega
  rcases hnum : parseNum (c :: s) with _ | ⟨⟨raw, r⟩⟩
  · simp [parseVal, h34, h123, h91, h110, h116, h102, h78, h73, h45, hnum, lit,
      List.isPrefixOf, Ne.symm h110, Ne.symm h116, Ne.symm h102, Ne.symm h78,
      Ne.symm h73, Ne.symm h45]
  · simp [parseVal, h34, h123, h91, h110, h116, h102, h78, h73, h45, hnum, lit,
      List.isPrefixOf, Ne.symm h110, Ne.symm h116, Ne.symm h102, Ne.symm h78,
      Ne.symm h73, Ne.symm h45]

theorem parseVal_other (f : Nat) {c : Nat} (s : PyStr) (h34 : c ≠ 34) (h123 : c ≠ 123)
    (h91 : c ≠ 91) (h110 : c ≠ 110) (h116 : c ≠ 116) (h102 : c ≠ 102) (h78 : c ≠ 78)
    (h73 : c ≠ 73) (h45 : c ≠ 45) (hd : isDigit c = false) :
    parseVal (f + 1) (c :: s) = none := by
  have hnum : parseNum (c :: s) = none := parseNum_none_head s h45 hd
  simp [parseVal, h34, h123, h91, h110, h116, h102, h78, h73, h45, hnum, lit,
    List.isPrefixOf, Ne.symm h110, Ne.symm h116, Ne.symm h102, Ne.symm h78,
    Ne.symm h73, Ne.symm h45]

theorem ipo_app {p s : PyStr} (w : PyStr) (h : p.isPrefixOf s = true) :
    p.isPrefixOf (s ++ w) = true := by
  obtain ⟨t, rfl⟩ := List.isPrefixOf_iff_prefix.1 h
  rw [List.append_assoc]
  exact ipo_app_self p (t ++ w)

theorem ipo_length {p s : PyStr} (h : p.isPrefixOf s = true) : p.length ≤ s.length := by
  obtain ⟨t, rfl⟩ := List.isPrefixOf_iff_prefix.1 h
  simp

theorem ipo_drop_app {p s : PyStr} (w : PyStr) (h : p.isPrefixOf s = true) :
    (s ++ w).drop p.length = s.drop p.length ++ w :=
  List.drop_append_of_le_length (ipo_length h)

/-- Appending JSON whitespace after a successfully scanned value (or
element / member list) does not change the parse; fuel may grow. -/
theorem parse_ext {w : PyStr} (hw : wsOnly w) : ∀ f : Nat,
    (∀ s v r f', parseVal f s = some (v, r) → f ≤ f' →
      parseVal f' (s ++ w) = some (v, r ++ w)) ∧
    (∀ s vs r f', parseArrElems f s = some (vs, r) → f ≤ f' →
      parseArrElems f' (s ++ w) = some (vs, r ++ w)) ∧
    (∀ s ms r f', parseObjMembers f s = some (ms, r) → f ≤ f' →
      parseObjMembers f' (s ++ w) = some (ms, r ++ w)) := by
  intro f
  induction f with
  | zero =>
    refine ⟨?_, ?_, ?_⟩
    · intro s v r f' hsome _
      rw [show parseVal 0 s = none from rfl] at hsome
      exact Option.noConfusion hsome
    · intro s vs r f' hsome _
      rw [show parseArrElems 0 s = none from rfl] at hsome
      exact Option.noConfusion hsome
    · intro s ms r f' hsome _
      rw [show parseObjMembers 0 s = none from rfl] at hsome
      exact Option.noConfusion hsome
  | succ g ih =>
    obtain ⟨ihv, ihe, iho⟩ := ih
    refine ⟨?_, ?_, ?_⟩
    · intro s v r f' hsome hle
      obtain ⟨g', rfl⟩ : ∃ g2, f' = g2 + 1 := ⟨f' - 1, by omega⟩
      have hg : g ≤ g' := by omega
      rcases s with _ | ⟨c, s⟩
      · rw [parseVal_nil] at hsome
        exact Option.noConfusion hsome
      · simp only [List.cons_append]
        by_cases h34 : c = 34
        · subst h34
          rw [parseVal_quote] at hsome
          rcases hscan : scanStr s with _ | ⟨⟨cs, r0⟩⟩
          · rw [hscan] at hsome
            exact Option.noConfusion hsome
          · rw [hscan] at hsome
            have hsome2 : some (Json.str cs, r0) = some (v, r) := hsome
            have hp := Option.some.inj hsome2
            injection hp with h1 h2
            subst h1
            subst h2
            rw [parseVal_quote, scanStr_ext w hscan]
        · by_cases h123 : c = 123
          · subst h123
            rw [parseVal_obj] at hsome
            rcases hsk : skipWs s with _ | ⟨h0, t0⟩
            · rw [hsk] at hsome
              have hsome2 : (match parseObjMembers g ([] : PyStr) with
                | some (ms, r2) => some (Json.obj ms, r2)
                | none => none) = some (v, r) := hsome
              rw [parseObjMembers_nil] at hsome2
              exact Option.noConfusion hsome2
            · have hne : skipWs s ≠ [] := by rw [hsk]; simp
              by_cases h125 : h0 = 125
              · subst h125
                rw [hsk] at hsome
                have hsome2 : some (Json.obj [], t0) = some (v, r) := hsome
                have hp := Option.some.inj hsome2
                injection hp with h1 h2
                subst h1
                subst h2
                rw [parseVal_obj, skipWs_app_left w hne, hsk]
                rfl
              · rw [hsk] at hsome
                have hred : (match h0 :: t0 with
                    | 125 :: r2 => some (Json.obj [], r2)
                    | s2 => (match parseObjMembers g s2 with
                      | some (ms, r2) => some (Json.obj ms, r2)
                      | none => none)) = (match parseObjMembers g (h0 :: t0) with
                    | some (ms, r2) => some (Json.obj ms, r2)
                    | none => none) := by
                  split
                  · next _ heq =>
                      injection heq with he1 he2
                      exact absurd he1 h125
                  · rfl
                have hsome2 := hred.symm.trans hsome
                rcases hms : parseObjMembers g (h0 :: t0) with _ | ⟨⟨ms, r2⟩⟩
                · rw [hms] at hsome2
                  exact Option.noConfusion hsome2
                · rw [hms] at hsome2
                  have hp := Option.some.inj hsome2
                  injection hp with h1 h2
                  subst h1
                  subst h2
                  have hmw := iho (h0 :: t0) ms r2 g' hms hg
                  rw [parseVal_obj, skipWs_app_left w hne, hsk]
                  simp only [List.cons_append] at hmw ⊢
                  split
                  · next _ heq =>
                      injection heq with he1 he2
                      exact absurd he1 h125
                  · rw [hmw]
          · by_cases h91 : c = 91
            · subst h91
              rw [parseVal_arr] at hsome
              rcases hsk : skipWs s with _ | ⟨h0, t0⟩
              · rw [hsk] at hsome
                have hsome2 : (match parseArrElems g ([] : PyStr) with
                  | some (vs, r2) => some (Json.arr vs, r2)
                  | none => none) = some (v, r) := hsome
                rw [parseArrElems_nil] at hsome2
                exact Option.noConfusion hsome2
              · have hne : skipWs s ≠ [] := by rw [hsk]; simp
                by_cases h93 : h0 = 93
                · subst h93
                  rw [hsk] at hsome
                  have hsome2 : some (Json.arr [], t0) = some (v, r) := hsome
                  have hp := Option.some.inj hsome2
                  injection hp with h1 h2
                  subst h1
                  subst h2
                  rw [parseVal_arr, skipWs_app_left w hne, hsk]
                  rfl
                · rw [hsk] at hsome
                  have hred : (match h0 :: t0 with
                      | 93 :: r2 => some (Json.arr [], r2)
                      | s2 => (match parseArrElems g s2 with
                        | some (vs, r2) => some (Json.arr vs, r2)
                        | none => none)) = (match parseArrElems g (h0 :: t0) with
                      | some (vs, r2) => some (Json.arr vs, r2)
                      | none => none) := by
                    split
                    · next _ heq =>
                        injection heq with he1 he2
                        exact absurd he1 h93
                    · rfl
                  have hsome2 := hred.symm.trans hsome
                  rcases hvs : parseArrElems g (h0 :: t0) with _ | ⟨⟨vs, r2⟩⟩
                  · rw [hvs] at hsome2
                    exact Option.noConfusion hsome2
                  · rw [hvs] at hsome2
                    have hp := Option.some.inj hsome2
                    injection hp with h1 h2
                    subst h1
                    subst h2
                    have hvw := ihe (h0 :: t0) vs r2 g' hvs hg
                    rw [parseVal_arr, skipWs_app_left w hne, hsk]
                    simp only [List.cons_append] at hvw ⊢
                    split
                    · next _ heq =>
                        injection heq with he1 he2
                        exact absurd he1 h93
                    · rw [hvw]
            · by_cases hdig : isDigit c = true
              · rw [parseVal_digit g s hdig] at hsome
                rcases hnum : parseNum (c :: s) with _ | ⟨⟨raw, r0⟩⟩
                · rw [hnum] at hsome
                  exact Option.noConfusion hsome
                · rw [hnum] at hsome
                  have hsome2 : some (Json.num raw, r0) = some (v, r) := hsome
                  have hp := Option.some.inj hsome2
                  injection hp with h1 h2
                  subst h1
                  subst h2
                  have hnw := parseNum_app hw hnum
                  simp only [List.cons_append] at hnw
                  rw [parseVal_digit g' (s ++ w) hdig, hnw]
              · by_cases h110 : c = 110
                · subst h110
                  rw [parseVal_n] at hsome
                  by_cases hpre : (lit "null").isPrefixOf (110 :: s) = true
                  · rw [if_pos hpre] at hsome
                    have hp := Option.some.inj hsome
                    injection hp with h1 h2
                    subst h1
                    subst h2
                    rw [parseVal_n, if_pos (by
                      have := ipo_app w hpre
                      simpa using this)]
                    have := ipo_drop_app w hpre
                    simp only [List.cons_append] at this ⊢
                    rw [show (lit "null").length = 4 from rfl] at this
                    rw [this]
                  · rw [if_neg hpre] at hsome
                    exact Option.noConfusion hsome
                · by_cases h116 : c = 116
                  · subst h116
                    rw [parseVal_t] at hsome
                    by_cases hpre : (lit "true").isPrefixOf (116 :: s) = true
                    · rw [if_pos hpre] at hsome
                      have hp := Option.some.inj hsome
                      injection hp with h1 h2
                      subst h1
                      subst h2
                      rw [parseVal_t, if_pos (by
                        have := ipo_app w hpre
                        simpa using this)]
                      have := ipo_drop_app w hpre
                      simp only [List.cons_append] at this ⊢
                      rw [show (lit "true").length = 4 from rfl] at this
                      rw [this]
                    · rw [if_neg hpre] at hsome
                      exact Option.noConfusion hsome
                  · by_cases h102 : c = 102
                    · subst h102
                      rw [parseVal_fa] at hsome
                      by_cases hpre : (lit "false").isPrefixOf (102 :: s) = true
                      · rw [if_pos hpre] at hsome
                        have hp := Option.some.inj hsome
                        injection hp with h1 h2
                        subst h1
                        subst h2
                        rw [parseVal_fa, if_pos (by
                          have := ipo_app w hpre
                          simpa using this)]
                        have := ipo_drop_app w hpre
                        simp only [List.cons_append] at this ⊢
                        rw [show (lit "false").length = 5 from rfl] at this
                        rw [this]
                      · rw [if_neg hpre] at hsome
                        exact Option.noConfusion hsome
                    · by_cases h78 : c = 78
                      · subst h78
                        rw [parseVal_nan] at hsome
                        by_cases hpre : (lit "NaN").isPrefixOf (78 :: s) = true
                        · rw [if_pos hpre] at hsome
                          have hp := Option.some.inj hsome
                          injection hp with h1 h2
                          subst h1
                          subst h2
                          rw [parseVal_nan, if_pos (by
                            have := ipo_app w hpre
                            simpa using this)]
                          have := ipo_drop_app w hpre
                          simp only [List.cons_append] at this ⊢
                          rw [show (lit "NaN").length = 3 from rfl] at this
                          rw [this]
                        · rw [if_neg hpre] at hsome
                          exact Option.noConfusion hsome
                      · by_cases h73 : c = 73
                        · subst h73
                          rw [parseVal_inf] at hsome
                          by_cases hpre : (lit "Infinity").isPrefixOf (73 :: s) = true
                          · rw [if_pos hpre] at hsome
                            have hp := Option.some.inj hsome
                            injection hp with h1 h2
                            subst h1
                            subst h2
                            rw [parseVal_inf, if_pos (by
                              have := ipo_app w hpre
                              simpa using this)]
                            have := ipo_drop_app w hpre
                            simp only [List.cons_append] at this ⊢
                            rw [show (lit "Infinity").length = 8 from rfl] at this
                            rw [this]
                          · rw [if_neg hpre] at hsome
                            exact Option.noConfusion hsome
                        · by_cases h45 : c = 45
                          · subst h45
                            rw [parseVal_dash] at hsome
                            rcases hnum : parseNum (45 :: s) with _ | ⟨⟨raw, r0⟩⟩
                            · rw [hnum] at hsome
                              by_cases hpre : (lit "-Infinity").isPrefixOf (45 :: s) = true
                              · rw [if_pos hpre] at hsome
                                have hp := Option.some.inj hsome
                                injection hp with h1 h2
                                subst h1
                                subst h2
                                have hdec := ipo_drop hpre
                                have hs73 : ∃ t2, s = 73 :: t2 := by
                                  rcases s with _ | ⟨x, t2⟩
                                  · exact absurd (ipo_length hpre) (by simp [lit])
                                  · refine ⟨t2, ?_⟩
                                    have : (45 :: x :: t2).take 2 = (lit "-Infinity").take 2 := by
                                      rw [hdec]
                                      rw [List.take_append_of_le_length (by simp [lit])]
                                    simp [lit] at this
                                    rw [this]
                                obtain ⟨t2, rfl⟩ := hs73
                                simp only [List.cons_append]
                                have hnum2 : parseNum (45 :: 73 :: (t2 ++ w)) = none := by
                                  rw [parseNum_cons45,
                                    parseIntPart_none_head (t2 ++ w) (show isDigit 73 = false from rfl)]
                                rw [parseVal_dash, hnum2, if_pos (by
                                  have := ipo_app w hpre
                                  simpa using this)]
                                have := ipo_drop_app w hpre
                                simp only [List.cons_append] at this ⊢
                                rw [show (lit "-Infinity").length = 9 from rfl] at this
                                rw [this]
                              · rw [if_neg hpre] at hsome
                                exact Option.noConfusion hsome
                            · rw [hnum] at hsome
                              have hsome2 : some (Json.num raw, r0) = some (v, r) := hsome
                              have hp := Option.some.inj hsome2
                              injection hp with h1 h2
                              subst h1
                              subst h2
                              have hnw := parseNum_app hw hnum
                              simp only [List.cons_append] at hnw
                              rw [parseVal_dash, hnw]
                          · have hd2 : isDigit c = false := by
                              cases hx : isDigit c
                              · rfl
                              · exact absurd hx hdig
                            rw [parseVal_other g s h34 h123 h91 h110 h116 h102 h78 h73 h45 hd2]
                              at hsome
                            exact Option.noConfusion hsome
    · intro s vs r f' hsome hle
      obtain ⟨g', rfl⟩ : ∃ g2, f' = g2 + 1 := ⟨f' - 1, by omega⟩
      have hg : g ≤ g' := by omega
      rw [parseArrElems] at hsome
      rcases hv : parseVal g s with _ | ⟨⟨v, r0⟩⟩
      · rw [hv] at hsome
        exact Option.noConfusion hsome
      · rw [hv] at hsome
        have hsome2 : (match skipWs r0 with
          | 93 :: r2 => some ([v], r2)
          | 44 :: r2 =>
            (match parseArrElems g (skipWs r2) with
             | some (vs2, r3) => some (v :: vs2, r3)
             | none => none)
          | _ => (none : Option (List Json × PyStr))) = some (vs, r) := hsome
      
        have hvx := ihv s v r0 g' hv hg
        rw [parseArrElems, hvx]
        show (match skipWs (r0 ++ w) with
          | 93 :: r2 => some ([v], r2)
          | 44 :: r2 =>
            (match parseArrElems g' (skipWs r2) with
             | some (vs2, r3) => some (v :: vs2, r3)
             | none => none)
          | _ => (none : Option (List Json × PyStr))) = some (vs, r ++ w)
        rcases hsk : skipWs r0 with _ | ⟨h0, t0⟩
        · rw [hsk] at hsome2
          exact Option.noConfusion hsome2
        · have hne : skipWs r0 ≠ [] := by rw [hsk]; simp
          rw [skipWs_app_left w hne, hsk]
          by_cases h93 : h0 = 93
          · subst h93
            rw [hsk] at hsome2
            have hsome3 : some ([v], t0) = some (vs, r) := hsome2
            have hp := Option.some.inj hsome3
            injection hp with h1 h2
            subst h1
            subst h2
            rfl
          · by_cases h44 : h0 = 44
            · subst h44
              rw [hsk] at hsome2
              have hsome3 : (match parseArrElems g (skipWs t0) with
                | some (vs2, r3) => some (v :: vs2, r3)
                | none => none) = some (vs, r) := hsome2
              rcases he2 : parseArrElems g (skipWs t0) with _ | ⟨⟨vs2, r3⟩⟩
              · rw [he2] at hsome3
                exact Option.noConfusion hsome3
              · rw [he2] at hsome3
                have hp := Option.some.inj hsome3
                injection hp with h1 h2
                subst h1
                subst h2
                rcases hsk0 : skipWs t0 with _ | ⟨q0, q1⟩
                · rw [hsk0, parseArrElems_nil] at he2
                  exact Option.noConfusion he2
                · have hne0 : skipWs t0 ≠ [] := by rw [hsk0]; simp
                  have hvw := ihe (skipWs t0) vs2 r3 g' he2 hg
                  show (match parseArrElems g' (skipWs (t0 ++ w)) with
                    | some (vs2, r3) => some (v :: vs2, r3)
                    | none => none) = some (v :: vs2, r3 ++ w)
                  rw [skipWs_app_left w hne0, hvw]
            · rw [hsk] at hsome2
              split at hsome2
              · next heq =>
                  injection heq with he1 he2
                  exact absurd he1 h93
              · next heq =>
                  injection heq with he1 he2
                  exact absurd he1 h44
              · exact Option.noConfusion hsome2
    · intro s ms r f' hsome hle
      obtain ⟨g', rfl⟩ : ∃ g2, f' = g2 + 1 := ⟨f' - 1, by omega⟩
      have hg : g ≤ g' := by omega
      rcases s with _ | ⟨c, s1⟩
      · rw [parseObjMembers_nil] at hsome
        exact Option.noConfusion hsome
      · by_cases hc : c = 34
        · subst hc
          rw [parseObjMembers] at hsome
          rcases hkey : scanStr s1 with _ | ⟨⟨key, r1⟩⟩
          · rw [hkey] at hsome
            exact Option.noConfusion hsome
          · rw [hkey] at hsome
            have hsome2 : (match skipWs r1 with
              | 58 :: r2 =>
                (match parseVal g (skipWs r2) with
                 | none => none
                 | some (v, r3) =>
                   (match skipWs r3 with
                    | 125 :: r4 => some ([(key, v)], r4)
                    | 44 :: r4 =>
                      (match parseObjMembers g (skipWs r4) with
                       | some (ms2, r5) => some ((key, v) :: ms2, r5)
                       | none => none)
                    | _ => none))
              | _ => (none : Option (List (PyStr × Json) × PyStr))) = some (ms, r) := hsome
            simp only [List.cons_append]
            rw [parseObjMembers, scanStr_ext w hkey]
            show (match skipWs (r1 ++ w) with
              | 58 :: r2 =>
                (match parseVal g' (skipWs r2) with
                 | none => none
                 | some (v, r3) =>
                   (match skipWs r3 with
                    | 125 :: r4 => some ([(key, v)], r4)
                    | 44 :: r4 =>
                      (match parseObjMembers g' (skipWs r4) with
                       | some (ms2, r5) => some ((key, v) :: ms2, r5)
                       | none => none)
                    | _ => none))
              | _ => (none : Option (List (PyStr × Json) × PyStr))) = some (ms, r ++ w)
            rcases hsk : skipWs r1 with _ | ⟨h0, t0⟩
            · rw [hsk] at hsome2
              exact Option.noConfusion hsome2
            · have hne : skipWs r1 ≠ [] := by rw [hsk]; simp
              rw [skipWs_app_left w hne, hsk]
              by_cases h58 : h0 = 58
              · subst h58
                rw [hsk] at hsome2
                have hsome3 : (match parseVal g (skipWs t0) with
                  | none => none
                  | some (v, r3) =>
                    (match skipWs r3 with
                     | 125 :: r4 => some ([(key, v)], r4)
                     | 44 :: r4 =>
                       (match parseObjMembers g (skipWs r4) with
                        | some (ms2, r5) => some ((key, v) :: ms2, r5)
                        | none => none)
                     | _ => none)) = some (ms, r) := hsome2
                show (match parseVal g' (skipWs (t0 ++ w)) with
                  | none => none
                  | some (v, r3) =>
                    (match skipWs r3 with
                     | 125 :: r4 => some ([(key, v)], r4)
                     | 44 :: r4 =>
                       (match parseObjMembers g' (skipWs r4) with
                        | some (ms2, r5) => some ((key, v) :: ms2, r5)
                        | none => none)
                     | _ => none)) = some (ms, r ++ w)
                rcases hv : parseVal g (skipWs t0) with _ | ⟨⟨v, r3⟩⟩
                · rw [hv] at hsome3
                  exact Option.noConfusion hsome3
                · rw [hv] at hsome3
                  rcases hsk0 : skipWs t0 with _ | ⟨q0, q1⟩
                  · rw [hsk0, parseVal_nil] at hv
                    exact Option.noConfusion hv
                  · have hne0 : skipWs t0 ≠ [] := by rw [hsk0]; simp
                    have hvw := ihv (skipWs t0) v r3 g' hv hg
                    rw [skipWs_app_left w hne0, hvw]
                    have hsome4 : (match skipWs r3 with
                      | 125 :: r4 => some ([(key, v)], r4)
                      | 44 :: r4 =>
                        (match parseObjMembers g (skipWs r4) with
                         | some (ms2, r5) => some ((key, v) :: ms2, r5)
                         | none => none)
                      | _ => (none : Option (List (PyStr × Json) × PyStr))) = some (ms, r) :=
                      hsome3
                    show (match skipWs (r3 ++ w) with
                      | 125 :: r4 => some ([(key, v)], r4)
                      | 44 :: r4 =>
                        (match parseObjMembers g' (skipWs r4) with
                         | some (ms2, r5) => some ((key, v) :: ms2, r5)
                         | none => none)
                      | _ => (none : Option (List (PyStr × Json) × PyStr))) = some (ms, r ++ w)
                    rcases hsk3 : skipWs r3 with _ | ⟨p0, p1⟩
                    · rw [hsk3] at hsome4
                      exact Option.noConfusion hsome4
                    · have hne3 : skipWs r3 ≠ [] := by rw [hsk3]; simp
                      rw [skipWs_app_left w hne3, hsk3]
                      by_cases h125 : p0 = 125
                      · subst h125
                        rw [hsk3] at hsome4
                        have hsome5 : some ([(key, v)], p1) = some (ms, r) := hsome4
                        have hp := Option.some.inj hsome5
                        injection hp with h1 h2
                        subst h1
                        subst h2
                        rfl
                      · by_cases h44 : p0 = 44
                        · subst h44
                          rw [hsk3] at hsome4
                          have hsome5 : (match parseObjMembers g (skipWs p1) with
                            | some (ms2, r5) => some ((key, v) :: ms2, r5)
                            | none => none) = some (ms, r) := hsome4
                          rcases hms2 : parseObjMembers g (skipWs p1) with _ | ⟨⟨ms2, r5⟩⟩
                          · rw [hms2] at hsome5
                            exact Option.noConfusion hsome5
                          · rw [hms2] at hsome5
                            have hp := Option.some.inj hsome5
                            injection hp with h1 h2
                            subst h1
                            subst h2
                            rcases hskp : skipWs p1 with _ | ⟨u0, u1⟩
                            · rw [hskp, parseObjMembers_nil] at hms2
                              exact Option.noConfusion hms2
                            · have hnep : skipWs p1 ≠ [] := by rw [hskp]; simp
                              have hmw := iho (skipWs p1) ms2 r5 g' hms2 hg
                              show (match parseObjMembers g' (skipWs (p1 ++ w)) with
                                | some (ms3, r6) => some ((key, v) :: ms3, r6)
                                | none => none) = some ((key, v) :: ms2, r5 ++ w)
                              rw [skipWs_app_left w hnep, hmw]
                        · rw [hsk3] at hsome4
                          split at hsome4
                          · next heq =>
                              injection heq with he1 he2
                              exact absurd he1 h125
                          · next heq =>
                              injection heq with he1 he2
                              exact absurd he1 h44
                          · exact Option.noConfusion hsome4
              · rw [hsk] at hsome2
                split at hsome2
                · next heq =>
                    injection heq with he1 he2
                    exact absurd he1 h58
                · exact Option.noConfusion hsome2
        · rw [parseObjMembers] at hsome
          · exact Option.noConfusion hsome
          · intro s2 heq
            injection heq with he1 he2
            exact absurd he1 hc

/-! ### Loader and fence lemmas -/

theorem notPyWs_notJsonWs {c : Nat} (h : isPyWs c = false) : isJsonWs c = false := by
  cases hx : isJsonWs c
  · rfl
  · rw [isPyWs_of_isJsonWs hx] at h
    cases h

theorem json_loads_pad {s : PyStr} {v : Json} (h1 : json_loads s = some v)
    (hhead : skipWs s = s) : json_loads ([10] ++ s ++ [10]) = some v := by
  have hsne : s ≠ [] := by
    intro hnil
    subst hnil
    exact Option.noConfusion h1
  unfold json_loads at h1
  rw [hhead] at h1
  rcases hp : parseVal (s.length + 1) s with _ | ⟨⟨v0, r⟩⟩
  · rw [hp] at h1
    exact Option.noConfusion h1
  · rw [hp] at h1
    have h1x : (if skipWs r = [] then some v0 else none) = some v := h1
    by_cases hr : skipWs r = []
    · rw [if_pos hr] at h1x
      have hv0 := Option.some.inj h1x
      subst hv0
      have hwr : wsOnly r := wsOnly_of_skipWs_eq_nil hr
      have hw10 : wsOnly ([10] : PyStr) := by
        intro c hc
        simp at hc
        subst hc
        rfl
      have hext := (parse_ext hw10 (s.length + 1)).1 s v0 r (s.length + 3) hp (by omega)
      unfold json_loads
      have hlen : (([10] : PyStr) ++ s ++ [10]).length + 1 = s.length + 3 := by
        simp
      rw [hlen]
      have hskip : skipWs (([10] : PyStr) ++ s ++ [10]) = s ++ [10] := by
        show skipWs (10 :: (s ++ [10])) = s ++ [10]
        rw [skipWs, List.dropWhile_cons]
        rw [if_pos (by rfl)]
        show skipWs (s ++ [10]) = s ++ [10]
        rw [skipWs_app_left [10] (by rw [hhead]; exact hsne), hhead]
      rw [hskip, hext]
      show (if skipWs (r ++ [10]) = [] then some v0 else none) = some v0
      rw [if_pos (skipWs_eq_nil (by
        intro c hc
        rcases List.mem_append.1 hc with hc1 | hc2
        · exact hwr c hc1
        · rw [List.mem_singleton] at hc2
          subst hc2
          rfl))]
    · rw [if_neg hr] at h1x
      exact Option.noConfusion h1x

theorem pyStrip_fence (x : PyStr) : pyStrip (ticks ++ x ++ ticks) = ticks ++ x ++ ticks := by
  have h1 : pyLStrip (ticks ++ x ++ ticks) = ticks ++ x ++ ticks :=
    pyLStrip_cons_not _ rfl
  have h2 : pyRStrip ((ticks ++ x ++ [96, 96]) ++ [96]) = (ticks ++ x ++ [96, 96]) ++ [96] :=
    pyRStrip_app_last _ rfl
  have hassoc : (ticks ++ x ++ [96, 96]) ++ [96] = ticks ++ x ++ ticks := by
    simp [ticks, List.append_assoc]
  rw [hassoc] at h2
  rw [pyStrip, h1, h2]

theorem fenceStrip_mid {mid : PyStr} (after : PyStr) (h : 96 ∉ mid) :
    fenceStrip (ticks ++ mid ++ ticks ++ after) = jsonTagStrip mid := by
  have hpre : ticks.isPrefixOf (ticks ++ mid ++ ticks ++ after) = true := by
    have := ipo_app_self ticks (mid ++ ticks ++ after)
    have hassoc : ticks ++ (mid ++ ticks ++ after) = ticks ++ mid ++ ticks ++ after := by
      simp [List.append_assoc]
    rw [hassoc] at this
    exact this
  rw [fenceStrip, if_pos hpre]
  have hdrop : (ticks ++ mid ++ ticks ++ after).drop 3 = mid ++ ticks ++ after := by
    show ((ticks ++ mid ++ ticks ++ after).drop ticks.length) = mid ++ ticks ++ after
    have hassoc : ticks ++ mid ++ ticks ++ after = ticks ++ (mid ++ ticks ++ after) := by
      simp [List.append_assoc]
    rw [hassoc, List.drop_left]
  rw [hdrop]
  have htake : (mid ++ ticks ++ after).take mid.length = mid := by
    have hassoc : mid ++ ticks ++ after = mid ++ (ticks ++ after) := by
      simp [List.append_assoc]
    rw [hassoc, List.take_left]
  simp only [findSub_boundary after h, htake]
  rfl

theorem fenceStrip_noTicks {s : PyStr} (h : 96 ∉ s) : fenceStrip s = s := by
  rw [fenceStrip, if_neg]
  intro hpre
  exact h (ticks_ipo_mem hpre)

/-! ### Round trip: scanning back an escaped string body -/

theorem hexVal_toHexDigit : ∀ d < 16, hexVal (toHexDigit d) = some d := by decide

theorem hex4_toHex4 {n : Nat} (h : n < 65536) :
    hex4 (toHexDigit (n / 4096 % 16)) (toHexDigit (n / 256 % 16))
      (toHexDigit (n / 16 % 16)) (toHexDigit (n % 16)) = some n := by
  simp only [hex4]
  rw [hexVal_toHexDigit (n / 4096 % 16) (by omega),
      hexVal_toHexDigit (n / 256 % 16) (by omega),
      hexVal_toHexDigit (n / 16 % 16) (by omega),
      hexVal_toHexDigit (n % 16) (by omega)]
  have harith : n / 4096 % 16 * 4096 + n / 256 % 16 * 256 + n / 16 % 16 * 16 + n % 16 = n := by
    omega
  exact congrArg some harith

theorem escChar_len {c : Nat} : 1 ≤ (escChar c).length := by
  unfold escChar
  repeat' split
  all_goals simp [toHex4]

theorem escStr_len (q : PyStr) : q.length ≤ (escStr q).length := by
  induction q with
  | nil => simp [escStr]
  | cons c t ih =>
    have h1 : escStr (c :: t) = escChar c ++ escStr t := by simp [escStr]
    rw [h1]
    simp only [List.length_append, List.length_cons]
    have h2 := @escChar_len c
    omega

theorem scanStrF_escChar {c : Nat} (hc : scalarChar c) (x : PyStr) (f : Nat) :
    scanStrF (f + 1) (escChar c ++ x) =
      (scanStrF f x).map (fun p => (c :: p.1, p.2)) := by
  by_cases h34 : c = 34
  · subst h34
    rw [show escChar 34 = [92, 34] from rfl]
    simp only [List.cons_append, List.nil_append]
    rw [scanStrF_esc f 34 x (by decide)]
    rfl
  by_cases h92 : c = 92
  · subst h92
    rw [show escChar 92 = [92, 92] from rfl]
    simp only [List.cons_append, List.nil_append]
    rw [scanStrF_esc f 92 x (by decide)]
    rfl
  by_cases h8 : c = 8
  · subst h8
    rw [show escChar 8 = [92, 98] from rfl]
    simp only [List.cons_append, List.nil_append]
    rw [scanStrF_esc f 98 x (by decide)]
    rfl
  by_cases h9 : c = 9
  · subst h9
    rw [show escChar 9 = [92, 116] from rfl]
    simp only [List.cons_append, List.nil_append]
    rw [scanStrF_esc f 116 x (by decide)]
    rfl
  by_cases h10 : c = 10
  · subst h10
    rw [show escChar 10 = [92, 110] from rfl]
    simp only [List.cons_append, List.nil_append]
    rw [scanStrF_esc f 110 x (by decide)]
    rfl
  by_cases h12 : c = 12
  · subst h12
    rw [show escChar 12 = [92, 102] from rfl]
    simp only [List.cons_append, List.nil_append]
    rw [scanStrF_esc f 102 x (by decide)]
    rfl
  by_cases h13 : c = 13
  · subst h13
    rw [show escChar 13 = [92, 114] from rfl]
    simp only [List.cons_append, List.nil_append]
    rw [scanStrF_esc f 114 x (by decide)]
    rfl
  by_cases hctrl : c < 32
  · have hesc : escChar c = 92 :: 117 :: toHex4 c := by
      simp only [escChar, if_neg h34, if_neg h92, if_neg h8, if_neg h9, if_neg h10,
        if_neg h12, if_neg h13, if_pos hctrl]
    rw [hesc, toHex4]
    simp only [List.cons_append]
    exact scanStrF_noHi f _ _ _ _ x (hex4_toHex4 (by omega)) (by omega)
  by_cases hprint : c ≤ 126
  · have hesc : escChar c = [c] := by
      simp only [escChar, if_neg h34, if_neg h92, if_neg h8, if_neg h9, if_neg h10,
        if_neg h12, if_neg h13, if_neg hctrl, if_pos hprint]
    rw [hesc]
    simp only [List.cons_append, List.nil_append]
    rw [scanStrF_plain f c x h34 h92, if_neg hctrl]
  by_cases hbmp : c < 65536
  · have hesc : escChar c = 92 :: 117 :: toHex4 c := by
      simp only [escChar, if_neg h34, if_neg h92, if_neg h8, if_neg h9, if_neg h10,
        if_neg h12, if_neg h13, if_neg hctrl, if_neg hprint, if_pos hbmp]
    rw [hesc, toHex4]
    simp only [List.cons_append]
    refine scanStrF_noHi f _ _ _ _ x (hex4_toHex4 hbmp) ?_
    intro hsur
    exact hc.2 ⟨hsur.1, by omega⟩
  · have hesc : escChar c =
        (92 :: 117 :: toHex4 (55296 + (c - 65536) / 1024)) ++
        (92 :: 117 :: toHex4 (56320 + (c - 65536) % 1024)) := by
      simp only [escChar, if_neg h34, if_neg h92, if_neg h8, if_neg h9, if_neg h10,
        if_neg h12, if_neg h13, if_neg hctrl, if_neg hprint, if_neg hbmp]
    have hcbound : c < 1114112 := hc.1
    rw [hesc, toHex4, toHex4]
    simp only [List.cons_append, List.append_assoc, List.nil_append]
    rw [scanStrF_pair f _ _ _ _ _ _ _ _ x
      (hex4_toHex4 (by omega)) (by omega) (hex4_toHex4 (by omega)) (by omega)]
    have hN : 65536 + (55296 + (c - 65536) / 1024 - 55296) * 1024 +
        (56320 + (c - 65536) % 1024 - 56320) = c := by omega
    rw [hN]

theorem scanStrF_escStr (r : PyStr) :
    ∀ (q : PyStr), scalarStr q → ∀ f,
      scanStrF (q.length + 1 + f) (escStr q ++ 34 :: r) = some (q, r) := by
  intro q
  induction q with
  | nil =>
    intro _ f
    have h1 : ([] : PyStr).length + 1 + f = f + 1 := by
      simp only [List.length_nil]
      omega
    rw [h1]
    show scanStrF (f + 1) (34 :: r) = some ([], r)
    exact scanStrF_quote f r
  | cons c t ih =>
    intro hq f
    have hc : scalarChar c := hq c (List.mem_cons_self c t)
    have ht : scalarStr t := fun y hy => hq y (List.mem_cons_of_mem c hy)
    have hesc : escStr (c :: t) = escChar c ++ escStr t := by simp [escStr]
    have hl : (c :: t).length + 1 + f = (t.length + 1 + f) + 1 := by simp; omega
    rw [hl, hesc, List.append_assoc, scanStrF_escChar hc _ _, ih ht f]
    rfl

theorem scanStrF_escStr_ge {q : PyStr} (hq : scalarStr q) (r : PyStr) {F : Nat}
    (hF : q.length + 1 ≤ F) : scanStrF F (escStr q ++ 34 :: r) = some (q, r) := by
  obtain ⟨f, rfl⟩ := Nat.exists_eq_add_of_le hF
  exact scanStrF_escStr r q hq f

theorem scanStr_escStr {q : PyStr} (hq : scalarStr q) (r : PyStr) :
    scanStr (escStr q ++ 34 :: r) = some (q, r) := by
  rw [scanStr]
  refine scanStrF_escStr_ge hq r ?_
  have h1 := escStr_len q
  simp only [List.length_append, List.length_cons]
  omega

/-! ### Round trip: whitespace and shape helpers -/

theorem wsOnly_indentStr (level : Nat) : wsOnly (indentStr level) := by
  intro c hc
  rw [indentStr] at hc
  rcases List.mem_cons.1 hc with h | h
  · subst h
    rfl
  · rw [List.eq_of_mem_replicate h]
    rfl

theorem skipWs_indent (level : Nat) (x : PyStr) :
    skipWs (indentStr level ++ x) = skipWs x :=
  skipWs_app_allws x (wsOnly_indentStr level)

theorem skipWs_32 (x : PyStr) : skipWs (32 :: x) = skipWs x := by
  rw [skipWs, skipWs, List.dropWhile_cons, if_pos (show isJsonWs 32 = true from rfl)]

theorem fenceStrip_head {c : Nat} (t : PyStr) (h : c ≠ 96) :
    fenceStrip (c :: t) = c :: t := by
  rw [fenceStrip, if_neg]
  intro hpre
  have hmem := ticks_ipo_mem hpre
  rcases List.mem_cons.1 hmem with h1 | h1
  · exact h h1.symm
  · have := hpre
    rw [show ticks = 96 :: [96, 96] from rfl, ipo_cons_ne _ _ (fun he => h he.symm)] at this
    exact Bool.noConfusion this

theorem dumpArrTail_len : ∀ (vs : List Json) (level : Nat),
    vs.length ≤ (dumpArrTail vs level).length := by
  intro vs
  induction vs with
  | nil => intro level; simp [dumpArrTail]
  | cons v t ih =>
    intro level
    rw [dumpArrTail]
    simp only [List.length_cons, List.length_append]
    have := ih level
    omega

theorem indentStr_len (level : Nat) : (indentStr level).length = 2 * level + 1 := by
  simp [indentStr]

/-! ### Round trip: parsing back a dumped object -/

theorem parseVal_str {f : Nat} {q : PyStr} (hq : scalarStr q) (r : PyStr) :
    parseVal (f + 1) (34 :: (escStr q ++ 34 :: r)) = some (Json.str q, r) := by
  rw [parseVal_quote, scanStr_escStr hq]

theorem parseObjMembers_last {fuel : Nat} {s1 key r1 r2 : PyStr} {v : Json} {r3 r4 : PyStr}
    (hscan : scanStr s1 = some (key, r1)) (h1 : skipWs r1 = 58 :: r2)
    (hval : parseVal fuel (skipWs r2) = some (v, r3)) (h2 : skipWs r3 = 125 :: r4) :
    parseObjMembers (fuel + 1) (34 :: s1) = some ([(key, v)], r4) := by
  rw [parseObjMembers, hscan]
  show (match skipWs r1 with
    | 58 :: r2 =>
      match parseVal fuel (skipWs r2) with
      | none => none
      | some (v, r3) =>
        match skipWs r3 with
        | 125 :: r4 => some ([(key, v)], r4)
        | 44 :: r4 =>
          match parseObjMembers fuel (skipWs r4) with
          | some (ms, r5) => some ((key, v) :: ms, r5)
          | none => none
        | _ => none
    | _ => none) = some ([(key, v)], r4)
  rw [h1]
  show (match parseVal fuel (skipWs r2) with
    | none => none
    | some (v, r3) =>
      match skipWs r3 with
      | 125 :: r4 => some ([(key, v)], r4)
      | 44 :: r4 =>
        match parseObjMembers fuel (skipWs r4) with
        | some (ms, r5) => some ((key, v) :: ms, r5)
        | none => none
      | _ => none) = some ([(key, v)], r4)
  rw [hval]
  show (match skipWs r3 with
    | 125 :: r4 => some ([(key, v)], r4)
    | 44 :: r4 =>
      match parseObjMembers fuel (skipWs r4) with
      | some (ms, r5) => some ((key, v) :: ms, r5)
      | none => none
    | _ => none) = some ([(key, v)], r4)
  rw [h2]

theorem parseObjMembers_more {fuel : Nat} {s1 key r1 r2 : PyStr} {v : Json}
    {r3 r4 : PyStr} {ms : List (PyStr × Json)} {r5 : PyStr}
    (hscan : scanStr s1 = some (key, r1)) (h1 : skipWs r1 = 58 :: r2)
    (hval : parseVal fuel (skipWs r2) = some (v, r3)) (h2 : skipWs r3 = 44 :: r4)
    (hrec : parseObjMembers fuel (skipWs r4) = some (ms, r5)) :
    parseObjMembers (fuel + 1) (34 :: s1) = some ((key, v) :: ms, r5) := by
  rw [parseObjMembers, hscan]
  show (match skipWs r1 with
    | 58 :: r2 =>
      match parseVal fuel (skipWs r2) with
      | none => none
      | some (v, r3) =>
        match skipWs r3 with
        | 125 :: r4 => some ([(key, v)], r4)
        | 44 :: r4 =>
          match parseObjMembers fuel (skipWs r4) with
          | some (ms, r5) => some ((key, v) :: ms, r5)
          | none => none
        | _ => none
    | _ => none) = some ((key, v) :: ms, r5)
  rw [h1]
  show (match parseVal fuel (skipWs r2) with
    | none => none
    | some (v, r3) =>
      match skipWs r3 with
      | 125 :: r4 => some ([(key, v)], r4)
      | 44 :: r4 =>
        match parseObjMembers fuel (skipWs r4) with
        | some (ms, r5) => some ((key, v) :: ms, r5)
        | none => none
      | _ => none) = some ((key, v) :: ms, r5)
  rw [hval]
  show (match skipWs r3 with
    | 125 :: r4 => some ([(key, v)], r4)
    | 44 :: r4 =>
      match parseObjMembers fuel (skipWs r4) with
      | some (ms, r5) => some ((key, v) :: ms, r5)
      | none => none
    | _ => none) = some ((key, v) :: ms, r5)
  rw [h2]
  show (match parseObjMembers fuel (skipWs r4) with
    | some (ms, r5) => some ((key, v) :: ms, r5)
    | none => none) = some ((key, v) :: ms, r5)
  rw [hrec]

theorem parseObjMembers_cards (ms : List (PyStr × PyStr)) :
    ∀ (k v : PyStr), scalarStr k → scalarStr v →
      (∀ m ∈ ms, scalarStr m.1 ∧ scalarStr m.2) → ∀ (F : Nat) (outer : PyStr),
      ms.length + 2 ≤ F →
      parseObjMembers F
        (34 :: (escStr k ++ 34 :: (58 :: 32 :: (34 :: (escStr v ++ 34 ::
          (dumpObjTail (ms.map (fun m => (m.1, Json.str m.2))) 2 ++
           (indentStr 1 ++ 125 :: outer))))))) =
        some ((k, Json.str v) :: ms.map (fun m => (m.1, Json.str m.2)), outer) := by
  induction ms with
  | nil =>
    intro k v hk hv _ F outer hF
    obtain ⟨G, rfl⟩ : ∃ G, F = G + 1 := ⟨F - 1, by omega⟩
    obtain ⟨g, rfl⟩ : ∃ g, G = g + 1 := ⟨G - 1, by omega⟩
    simp only [List.map_nil]
    rw [show dumpObjTail ([] : List (PyStr × Json)) 2 = [] from rfl, List.nil_append]
    have hval : parseVal (g + 1)
        (skipWs (32 :: (34 :: (escStr v ++ 34 :: (indentStr 1 ++ 125 :: outer))))) =
        some (Json.str v, indentStr 1 ++ 125 :: outer) := by
      rw [skipWs_32, skipWs_cons_not _ (show isJsonWs 34 = false from rfl)]
      exact parseVal_str hv _
    have h2 : skipWs (indentStr 1 ++ 125 :: outer) = 125 :: outer := by
      rw [skipWs_indent, skipWs_cons_not _ (show isJsonWs 125 = false from rfl)]
    have h1 : skipWs (58 :: (32 :: (34 :: (escStr v ++ 34 :: (indentStr 1 ++ 125 :: outer))))) =
        58 :: (32 :: (34 :: (escStr v ++ 34 :: (indentStr 1 ++ 125 :: outer)))) :=
      skipWs_cons_not _ rfl
    exact parseObjMembers_last (scanStr_escStr hk _) h1 hval h2
  | cons m rest ih =>
    intro k v hk hv hms F outer hF
    obtain ⟨G, rfl⟩ : ∃ G, F = G + 1 := ⟨F - 1, by omega⟩
    obtain ⟨g, rfl⟩ : ∃ g, G = g + 1 := ⟨G - 1, by omega⟩
    have hm := hms m (List.mem_cons_self m rest)
    have hrest : ∀ x ∈ rest, scalarStr x.1 ∧ scalarStr x.2 :=
      fun x hx => hms x (List.mem_cons_of_mem m hx)
    simp only [List.map_cons, List.length_cons] at hF ⊢
    have hcolon : lit ": " = [58, 32] := rfl
    have htail : dumpObjTail ((m.1, Json.str m.2) ::
          rest.map (fun x => (x.1, Json.str x.2))) 2 ++ (indentStr 1 ++ 125 :: outer) =
        44 :: (indentStr 2 ++ (34 :: (escStr m.1 ++ 34 :: (58 :: 32 :: (34 ::
          (escStr m.2 ++ 34 :: (dumpObjTail (rest.map (fun x => (x.1, Json.str x.2))) 2 ++
            (indentStr 1 ++ 125 :: outer)))))))) := by
      rw [dumpObjTail, dumpMember]
      simp only [dumpJson, hcolon, List.append_assoc, List.cons_append,
        List.singleton_append, List.nil_append, List.append_nil]
    rw [htail]
    generalize hTm : (34 :: (escStr m.1 ++ 34 :: (58 :: 32 :: (34 :: (escStr m.2 ++ 34 ::
      (dumpObjTail (rest.map (fun x => (x.1, Json.str x.2))) 2 ++
        (indentStr 1 ++ 125 :: outer))))))) = Tm
    have hrec : parseObjMembers (g + 1) (skipWs (indentStr 2 ++ Tm)) =
        some ((m.1, Json.str m.2) :: rest.map (fun x => (x.1, Json.str x.2)), outer) := by
      rw [← hTm, skipWs_indent, skipWs_cons_not _ (show isJsonWs 34 = false from rfl)]
      exact ih m.1 m.2 hm.1 hm.2 hrest (g + 1) outer (by omega)
    have hval : parseVal (g + 1)
        (skipWs (32 :: (34 :: (escStr v ++ 34 :: (44 :: (indentStr 2 ++ Tm)))))) =
        some (Json.str v, 44 :: (indentStr 2 ++ Tm)) := by
      rw [skipWs_32, skipWs_cons_not _ (show isJsonWs 34 = false from rfl)]
      exact parseVal_str hv _
    have h1 : skipWs (58 :: (32 :: (34 :: (escStr v ++ 34 :: (44 :: (indentStr 2 ++ Tm)))))) =
        58 :: (32 :: (34 :: (escStr v ++ 34 :: (44 :: (indentStr 2 ++ Tm))))) :=
      skipWs_cons_not _ rfl
    have h2 : skipWs (44 :: (indentStr 2 ++ Tm)) = 44 :: (indentStr 2 ++ Tm) :=
      skipWs_cons_not _ rfl
    exact parseObjMembers_more (scanStr_escStr hk _) h1 hval h2 hrec

/-! ### Round trip: parsing back a dumped card and card array -/

theorem parseVal_objStep {fuel : Nat} {s t : PyStr} {ms : List (PyStr × Json)} {r : PyStr}
    (h1 : skipWs s = 34 :: t) (h2 : parseObjMembers fuel (34 :: t) = some (ms, r)) :
    parseVal (fuel + 1) (123 :: s) = some (Json.obj ms, r) := by
  rw [parseVal_obj, h1]
  show (match parseObjMembers fuel (34 :: t) with
    | some (ms, r) => some (Json.obj ms, r)
    | none => none) = some (Json.obj ms, r)
  rw [h2]

theorem parseVal_card {x : Card} (hx : scalarCard x) (outer : PyStr) {F : Nat}
    (hF : 4 ≤ F) : parseVal F (dumpJson (cardToJson x) 1 ++ outer) =
      some (cardToJson x, outer) := by
  obtain ⟨G, rfl⟩ : ∃ G, F = G + 1 := ⟨F - 1, by omega⟩
  have hcolon : lit ": " = [58, 32] := rfl
  have hshape : dumpJson (cardToJson x) 1 ++ outer =
      123 :: (indentStr 2 ++ (34 :: (escStr (lit "question") ++ 34 :: (58 :: 32 :: (34 ::
        (escStr x.1 ++ 34 :: (dumpObjTail [(lit "answer", Json.str x.2)] 2 ++
          (indentStr 1 ++ 125 :: outer)))))))) := by
    rw [cardToJson, dumpJson, dumpMember]
    simp only [dumpJson, hcolon, List.append_assoc, List.cons_append,
      List.singleton_append, List.nil_append]
  have hobj := parseObjMembers_cards [(lit "answer", x.2)] (lit "question") x.1
    (by decide) hx.1
    (by
      intro m hm
      rw [List.mem_singleton] at hm
      subst hm
      exact ⟨show scalarStr (lit "answer") by decide, hx.2⟩)
    G outer (by simp only [List.length_cons, List.length_nil]; omega)
  simp only [List.map_cons, List.map_nil] at hobj
  rw [hshape]
  generalize hY : (escStr (lit "question") ++ 34 :: (58 :: 32 :: (34 ::
    (escStr x.1 ++ 34 :: (dumpObjTail [(lit "answer", Json.str x.2)] 2 ++
      (indentStr 1 ++ 125 :: outer)))))) = Y
  rw [hY] at hobj
  have h1 : skipWs (indentStr 2 ++ (34 :: Y)) = 34 :: Y := by
    rw [skipWs_indent]
    exact skipWs_cons_not _ (show isJsonWs 34 = false from rfl)
  exact parseVal_objStep h1 hobj

theorem parseArrElems_last {fuel : Nat} {s : PyStr} {v : Json} {r r2 : PyStr}
    (hval : parseVal fuel s = some (v, r)) (h1 : skipWs r = 93 :: r2) :
    parseArrElems (fuel + 1) s = some ([v], r2) := by
  rw [parseArrElems, hval]
  show (match skipWs r with
    | 93 :: r2 => some ([v], r2)
    | 44 :: r2 =>
      match parseArrElems fuel (skipWs r2) with
      | some (vs, r3) => some (v :: vs, r3)
      | none => none
    | _ => none) = some ([v], r2)
  rw [h1]

theorem parseArrElems_more {fuel : Nat} {s : PyStr} {v : Json} {r r2 : PyStr}
    {vs : List Json} {r3 : PyStr}
    (hval : parseVal fuel s = some (v, r)) (h1 : skipWs r = 44 :: r2)
    (hrec : parseArrElems fuel (skipWs r2) = some (vs, r3)) :
    parseArrElems (fuel + 1) s = some (v :: vs, r3) := by
  rw [parseArrElems, hval]
  show (match skipWs r with
    | 93 :: r2 => some ([v], r2)
    | 44 :: r2 =>
      match parseArrElems fuel (skipWs r2) with
      | some (vs, r3) => some (v :: vs, r3)
      | none => none
    | _ => none) = some (v :: vs, r3)
  rw [h1]
  show (match parseArrElems fuel (skipWs r2) with
    | some (vs, r3) => some (v :: vs, r3)
    | none => none) = some (v :: vs, r3)
  rw [hrec]

theorem parseArrElems_cards (xs : List Card) :
    ∀ (x : Card), scalarCard x → (∀ c ∈ xs, scalarCard c) → ∀ (F : Nat) (outer : PyStr),
      xs.length + 5 ≤ F →
      parseArrElems F (dumpJson (cardToJson x) 1 ++
        (dumpArrTail (xs.map cardToJson) 1 ++ (indentStr 0 ++ 93 :: outer))) =
      some (cardToJson x :: xs.map cardToJson, outer) := by
  induction xs with
  | nil =>
    intro x hx _ F outer hF
    obtain ⟨G, rfl⟩ : ∃ G, F = G + 1 := ⟨F - 1, by omega⟩
    simp only [List.map_nil]
    rw [show dumpArrTail ([] : List Json) 1 = [] from rfl, List.nil_append]
    have hval : parseVal G (dumpJson (cardToJson x) 1 ++ (indentStr 0 ++ 93 :: outer)) =
        some (cardToJson x, indentStr 0 ++ 93 :: outer) :=
      parseVal_card hx _ (by omega)
    have h1 : skipWs (indentStr 0 ++ 93 :: outer) = 93 :: outer := by
      rw [skipWs_indent]
      exact skipWs_cons_not _ (show isJsonWs 93 = false from rfl)
    exact parseArrElems_last hval h1
  | cons y ys ih =>
    intro x hx hys F outer hF
    obtain ⟨G, rfl⟩ : ∃ G, F = G + 1 := ⟨F - 1, by omega⟩
    have hy : scalarCard y := hys y (List.mem_cons_self y ys)
    have hys2 : ∀ c ∈ ys, scalarCard c := fun c hc => hys c (List.mem_cons_of_mem y hc)
    simp only [List.map_cons, List.length_cons] at hF ⊢
    have htail : dumpArrTail (cardToJson y :: ys.map cardToJson) 1 ++
        (indentStr 0 ++ 93 :: outer) =
        44 :: (indentStr 1 ++ (dumpJson (cardToJson y) 1 ++ (dumpArrTail (ys.map cardToJson) 1 ++
          (indentStr 0 ++ 93 :: outer)))) := by
      rw [dumpArrTail]
      simp only [List.append_assoc, List.cons_append]
    rw [htail]
    have hval : parseVal G (dumpJson (cardToJson x) 1 ++ (44 :: (indentStr 1 ++
        (dumpJson (cardToJson y) 1 ++ (dumpArrTail (ys.map cardToJson) 1 ++
          (indentStr 0 ++ 93 :: outer)))))) =
        some (cardToJson x, 44 :: (indentStr 1 ++ (dumpJson (cardToJson y) 1 ++
          (dumpArrTail (ys.map cardToJson) 1 ++ (indentStr 0 ++ 93 :: outer))))) :=
      parseVal_card hx _ (by omega)
    have hrec : parseArrElems G (skipWs (indentStr 1 ++ (dumpJson (cardToJson y) 1 ++
        (dumpArrTail (ys.map cardToJson) 1 ++ (indentStr 0 ++ 93 :: outer))))) =
        some (cardToJson y :: ys.map cardToJson, outer) := by
      rw [skipWs_indent]
      have hyc : dumpJson (cardToJson y) 1 = 123 :: (indentStr 2 ++
          dumpMember (lit "question", Json.str y.1) 2 ++
          dumpObjTail [(lit "answer", Json.str y.2)] 2 ++ indentStr 1 ++ [125]) := by
        rw [cardToJson, dumpJson]
      have hA : skipWs (dumpJson (cardToJson y) 1 ++ (dumpArrTail (ys.map cardToJson) 1 ++
          (indentStr 0 ++ 93 :: outer))) = dumpJson (cardToJson y) 1 ++
          (dumpArrTail (ys.map cardToJson) 1 ++ (indentStr 0 ++ 93 :: outer)) := by
        rw [hyc, List.cons_append]
        exact skipWs_cons_not _ (show isJsonWs 123 = false from rfl)
      rw [hA]
      exact ih y hy hys2 G outer (by omega)
    exact parseArrElems_more hval
      (skipWs_cons_not _ (show isJsonWs 44 = false from rfl)) hrec

theorem roundtrip_scalar_cards_aux (cs : List Card) (h : ∀ c ∈ cs, scalarCard c) :
    decodeResponse (dumpCards cs) = some (cardsToJson cs) := by
  cases cs with
  | nil => rfl
  | cons x xs =>
    have hx : scalarCard x := h x (List.mem_cons_self x xs)
    have hxs : ∀ c ∈ xs, scalarCard c := fun c hc => h c (List.mem_cons_of_mem x hc)
    have hshape : dumpCards (x :: xs) =
        91 :: (indentStr 1 ++ (dumpJson (cardToJson x) 1 ++
          (dumpArrTail (xs.map cardToJson) 1 ++ (indentStr 0 ++ [93])))) := by
      rw [dumpCards, cardsToJson]
      simp only [List.map_cons]
      rw [dumpJson]
      norm_num [List.append_assoc]
    have halt : dumpCards (x :: xs) =
        (91 :: (indentStr 1 ++ dumpJson (cardToJson x) 1 ++
          dumpArrTail (xs.map cardToJson) 1 ++ indentStr 0)) ++ [93] := by
      rw [hshape]
      simp only [List.append_assoc, List.cons_append]
    have hpy : pyStrip (dumpCards (x :: xs)) = dumpCards (x :: xs) := by
      rw [halt]
      exact pyStrip_cons_last _ rfl rfl
    have hfence : fenceStrip (dumpCards (x :: xs)) = dumpCards (x :: xs) := by
      rw [hshape]
      exact fenceStrip_head _ (by decide)
    have hskip : skipWs (dumpCards (x :: xs)) = dumpCards (x :: xs) := by
      rw [hshape]
      exact skipWs_cons_not _ (show isJsonWs 91 = false from rfl)
    have hlen : xs.length + 5 ≤ (dumpCards (x :: xs)).length := by
      rw [hshape]
      have h1 := dumpArrTail_len (xs.map cardToJson) 1
      simp only [List.length_map] at h1
      simp only [List.length_cons, List.length_append, indentStr_len]
      omega
    obtain ⟨L, hL1, hL2⟩ : ∃ L, (dumpCards (x :: xs)).length = L ∧ xs.length + 5 ≤ L :=
      ⟨_, rfl, hlen⟩
    have hAcons : dumpJson (cardToJson x) 1 = 123 :: (indentStr 2 ++
        dumpMember (lit "question", Json.str x.1) 2 ++
        dumpObjTail [(lit "answer", Json.str x.2)] 2 ++ indentStr 1 ++ [125]) := by
      rw [cardToJson, dumpJson]
    have hparse : parseVal (L + 1) (dumpCards (x :: xs)) =
        some (cardsToJson (x :: xs), []) := by
      rw [hshape, parseVal_arr]
      have hS : skipWs (indentStr 1 ++ (dumpJson (cardToJson x) 1 ++
          (dumpArrTail (xs.map cardToJson) 1 ++ (indentStr 0 ++ [93])))) =
          dumpJson (cardToJson x) 1 ++
          (dumpArrTail (xs.map cardToJson) 1 ++ (indentStr 0 ++ [93])) := by
        rw [skipWs_indent, hAcons, List.cons_append]
        exact skipWs_cons_not _ (show isJsonWs 123 = false from rfl)
      rw [hS, hAcons, List.cons_append]
      split
      next r heq => exact absurd heq (by simp)
      next s2 =>
        rw [← List.cons_append, ← hAcons]
        rw [parseArrElems_cards xs x hx hxs L [] (by omega)]
        rfl
    rw [decodeResponse_eq, hpy, hfence]
    unfold json_loads
    rw [hskip, hL1, hparse]
    rfl

/-! ### Remaining helper lemmas -/

theorem concat7_mid2 (l1 x1 l2 x2 l3 x3 l4 : PyStr) :
    ∃ a b, l1 ++ x1 ++ l2 ++ x2 ++ l3 ++ x3 ++ l4 = a ++ (x1 ++ b) :=
  ⟨l1, l2 ++ x2 ++ l3 ++ x3 ++ l4, by simp [List.append_assoc]⟩

theorem concat7_mid4 (l1 x1 l2 x2 l3 x3 l4 : PyStr) :
    ∃ a b, l1 ++ x1 ++ l2 ++ x2 ++ l3 ++ x3 ++ l4 = a ++ (x2 ++ b) :=
  ⟨l1 ++ x1 ++ l2, l3 ++ x3 ++ l4, by simp [List.append_assoc]⟩

theorem pyStrip_fence_after (mid after : PyStr) :
    pyStrip (ticks ++ mid ++ ticks ++ after) =
      ticks ++ mid ++ ticks ++ pyRStrip after := by
  have hl : pyLStrip (ticks ++ mid ++ ticks ++ after) = ticks ++ mid ++ ticks ++ after :=
    pyLStrip_cons_not _ rfl
  rw [pyStrip, hl, pyRStrip_append]
  by_cases hr : pyRStrip after = []
  · rw [if_pos hr, hr, List.append_nil]
    have h2 : pyRStrip ((ticks ++ mid ++ [96, 96]) ++ [96]) =
        (ticks ++ mid ++ [96, 96]) ++ [96] :=
      pyRStrip_app_last _ rfl
    have hassoc : (ticks ++ mid ++ [96, 96]) ++ [96] = ticks ++ mid ++ ticks := by
      simp [ticks, List.append_assoc]
    rw [hassoc] at h2
    exact h2
  · rw [if_neg hr]

/-! ### Claim theorems -/

/-- C1: a JSON array response wrapped in a backtick fence with a leading
json language tag (three backticks, the tag, a newline, the array text,
a newline, three backticks) decodes to exactly the same array value as
the bare array text, and the bare text decodes to that value.  The
hypotheses say the array text parses as a JSON array, is already
whitespace-trimmed, and contains no backtick (so the payload holds no
fence delimiter of its own). -/
theorem fence_strip_equiv {s : PyStr} {v : List Json}
    (hok : json_loads s = some (Json.arr v))
    (htrim : pyStrip s = s) (hticks : 96 ∉ s) :
    decodeResponse (ticks ++ lit "json" ++ [10] ++ s ++ [10] ++ ticks) =
      some (Json.arr v) ∧
    decodeResponse s = some (Json.arr v) := by
  have hsne : s ≠ [] := by
    intro hnil
    subst hnil
    exact Option.noConfusion hok
  have hskip : skipWs s = s := by
    cases s with
    | nil => exact absurd rfl hsne
    | cons c t =>
      exact skipWs_cons_not t (notPyWs_notJsonWs (pyStrip_self_head htrim))
  constructor
  · rw [decodeResponse_eq]
    have hshape : ticks ++ lit "json" ++ [10] ++ s ++ [10] ++ ticks =
        ticks ++ (lit "json" ++ [10] ++ s ++ [10]) ++ ticks := by
      simp [List.append_assoc]
    rw [hshape, pyStrip_fence]
    have hmid : 96 ∉ lit "json" ++ [10] ++ s ++ [10] := by
      intro hm
      simp only [List.mem_append, List.mem_singleton] at hm
      rcases hm with ((h1 | h2) | h3) | h4
      · revert h1
        decide
      · exact absurd h2 (by decide)
      · exact hticks h3
      · exact absurd h4 (by decide)
    have hfs := @fenceStrip_mid (lit "json" ++ [10] ++ s ++ [10]) [] hmid
    have hnil : ticks ++ (lit "json" ++ [10] ++ s ++ [10]) ++ ticks ++ ([] : PyStr) =
        ticks ++ (lit "json" ++ [10] ++ s ++ [10]) ++ ticks := by
      simp
    rw [hnil] at hfs
    rw [hfs]
    have htag : jsonTagStrip (lit "json" ++ [10] ++ s ++ [10]) = [10] ++ s ++ [10] := by
      rw [jsonTagStrip]
      have hpre : (lit "json").isPrefixOf (lit "json" ++ [10] ++ s ++ [10]) = true := by
        have h1 := ipo_app_self (lit "json") ([10] ++ s ++ [10])
        have h2 : lit "json" ++ ([10] ++ s ++ [10]) = lit "json" ++ [10] ++ s ++ [10] := by
          simp [List.append_assoc]
        rw [h2] at h1
        exact h1
      rw [if_pos hpre]
      have h3 : lit "json" ++ [10] ++ s ++ [10] = lit "json" ++ ([10] ++ s ++ [10]) := by
        simp [List.append_assoc]
      rw [h3]
      show (lit "json" ++ ([10] ++ s ++ [10])).drop (lit "json").length = [10] ++ s ++ [10]
      rw [List.drop_left]
    rw [htag]
    exact json_loads_pad hok hskip
  · rw [decodeResponse_eq, htrim, fenceStrip_noTicks hticks]
    exact hok

theorem fence_strip_equiv_witness :
    decodeResponse (ticks ++ lit "json" ++ [10] ++ lit "[\"Q\"]" ++ [10] ++ ticks) =
      some (Json.arr [Json.str (lit "Q")]) ∧
    decodeResponse (lit "[\"Q\"]") = some (Json.arr [Json.str (lit "Q")]) :=
  fence_strip_equiv
    (show json_loads (lit "[\"Q\"]") = some (Json.arr [Json.str (lit "Q")]) from rfl)
    rfl (by decide)

/-- C2, counterexample to the spec sentence: a stripped text that is a
JSON object (not an array) is not rejected; the decoder returns it as a
success value. -/
theorem nonarray_accepted_cex :
    decodeResponse (lit "\x7b\"a\": 1\x7d") =
      some (Json.obj [(lit "a", Json.num (lit "1"))]) := rfl

/-- C2, amended: the decoder returns whatever JSON value the stripped
text parses to, array or not; it fails only when parsing fails.  There
is no array check in src/app.py lines 51-52. -/
theorem decoder_returns_any_parsed_json {raw : PyStr} {v : Json}
    (h : json_loads (fenceStrip (pyStrip raw)) = some v) :
    decodeResponse raw = some v := by
  rw [decodeResponse_eq]
  exact h

theorem decoder_returns_any_parsed_json_witness :
    decodeResponse (lit "\"hi\"") = some (Json.str (lit "hi")) :=
  decoder_returns_any_parsed_json
    (show json_loads (fenceStrip (pyStrip (lit "\"hi\""))) = some (Json.str (lit "hi"))
      from rfl)

/-- C3: when the stripped and fence-stripped text is malformed JSON
(json.loads fails), the decoder returns the failure value and nothing
else: no partial record list exists, because the only success path of
generate_flashcards is the full json.loads result. -/
theorem malformed_json_rejected {raw : PyStr}
    (h : json_loads (fenceStrip (pyStrip raw)) = none) :
    decodeResponse raw = none := by
  rw [decodeResponse_eq]
  exact h

theorem malformed_json_rejected_witness :
    decodeResponse (lit "[1, 2,]") = none ∧ decodeResponse (lit "[\"q\", \"a\"") = none :=
  ⟨malformed_json_rejected rfl, malformed_json_rejected rfl⟩

/-- C4: for a card count in [1, 200] and a source text of length at
least 50, the prompt contains the decimal rendering of the count and
the source text verbatim as contiguous substrings. -/
theorem prompt_contains_count_and_text (text : PyStr) (num_cards : Nat)
    (h1 : 1 ≤ num_cards) (h2 : num_cards ≤ 200) (h3 : 50 ≤ text.length) :
    (∃ a b, buildPrompt text num_cards = a ++ (decRepr num_cards ++ b)) ∧
    (∃ a b, buildPrompt text num_cards = a ++ (text ++ b)) := by
  constructor
  · exact concat7_mid2 _ _ _ _ _ _ _
  · exact concat7_mid4 _ _ _ _ _ _ _

theorem prompt_contains_count_and_text_witness :
    (∃ a b, buildPrompt (lit "Machine learning is a subset of artificial intelligence, ok.") 3 =
      a ++ (decRepr 3 ++ b)) ∧
    (∃ a b, buildPrompt (lit "Machine learning is a subset of artificial intelligence, ok.") 3 =
      a ++ (lit "Machine learning is a subset of artificial intelligence, ok." ++ b)) :=
  prompt_contains_count_and_text _ 3 (by decide) (by decide) (by decide)

/-- C5: a source text shorter than 50 characters (the empty text
included) makes the submit branch of main show the warning; the
pipeline, and with it the provider, is never invoked, which the
quantification over every provider expresses. -/
theorem short_text_rejected_before_provider (provider : PyStr → Option PyStr)
    (text_input : PyStr) (num_cards : Nat) (h : text_input.length < 50) :
    mainSubmit provider text_input num_cards = SubmitOutcome.warned := by
  rw [mainSubmit, if_pos (Or.inr h)]

theorem short_text_rejected_before_provider_witness :
    (lit "too short").length < 50 ∧
    mainSubmit (fun _ => some (lit "[1]")) (lit "too short") 10 = SubmitOutcome.warned :=
  ⟨by decide, short_text_rejected_before_provider _ _ _ (by decide)⟩

/-- C6: a raw provider response that is empty or consists only of
whitespace strips to the empty text, which json.loads rejects, so the
decoder fails. -/
theorem whitespace_response_rejected {raw : PyStr}
    (h : ∀ c ∈ raw, isPyWs c = true) : decodeResponse raw = none := by
  rw [decodeResponse_eq, pyStrip_allws h]
  rfl

theorem whitespace_response_rejected_witness :
    decodeResponse ([] : PyStr) = none ∧ decodeResponse (lit "  \n\t  ") = none :=
  ⟨whitespace_response_rejected (by decide), whitespace_response_rejected (by decide)⟩

/-- C7, counterexample to the unrestricted round-trip claim: a question
text holding the two surrogate code points U+D800, U+DC00 is serialized
as an adjacent escape pair and decoded back as the single code point
U+10000, so the decoded sequence differs from the original. -/
theorem roundtrip_surrogate_cex :
    decodeResponse (dumpCards [([55296, 56320], lit "a")]) =
      some (cardsToJson [([65536], lit "a")]) ∧
    ([65536] : PyStr) ≠ [55296, 56320] :=
  ⟨rfl, by decide⟩

/-- C7, amended: for every flashcard sequence whose question and answer
texts consist of Unicode scalar values (no surrogate code points),
serializing with the 2-space-indented JSON export of save_flashcards
and feeding the text back through the response decoder returns exactly
the original sequence. -/
theorem roundtrip_scalar_cards (cs : List Card) (h : ∀ c ∈ cs, scalarCard c) :
    decodeResponse (dumpCards cs) = some (cardsToJson cs) :=
  roundtrip_scalar_cards_aux cs h

theorem roundtrip_scalar_cards_witness :
    decodeResponse (dumpCards [(lit "Q1", lit "A1"), (lit "Q2", lit "A2")]) =
      some (cardsToJson [(lit "Q1", lit "A1"), (lit "Q2", lit "A2")]) :=
  roundtrip_scalar_cards [(lit "Q1", lit "A1"), (lit "Q2", lit "A2")] (by decide)

/-- C8: whatever JSON array the provider response decodes to is returned
as the pipeline result unchanged; the element count is never compared
with the requested num_cards, so the theorem holds for every count. -/
theorem count_not_enforced (text : PyStr) (num_cards : Nat) (resp : PyStr)
    (vs : List Json) (h : decodeResponse resp = some (Json.arr vs)) :
    generate_flashcards (fun _ => some resp) text num_cards = some (Json.arr vs) := by
  show decodeResponse resp = some (Json.arr vs)
  exact h

theorem count_not_enforced_witness :
    generate_flashcards (fun _ => some (lit "[1, 2]")) (lit "some text") 5 =
      some (Json.arr [Json.num (lit "1"), Json.num (lit "2")]) :=
  count_not_enforced (lit "some text") 5 (lit "[1, 2]")
    [Json.num (lit "1"), Json.num (lit "2")] rfl

/-- C9: a pipeline result that is the empty JSON array fails the
truthiness test of the line `if flashcards:` exactly as the failure
value None does, so main renders nothing and writes no files in either
case. -/
theorem empty_array_treated_as_failure (provider : PyStr → Option PyStr)
    (text : PyStr) (num_cards : Nat)
    (h : generate_flashcards provider text num_cards = some (Json.arr [])) :
    mainPostGenerate (generate_flashcards provider text num_cards) = PostGen.skipped ∧
    mainPostGenerate none = PostGen.skipped := by
  rw [h]
  exact ⟨rfl, rfl⟩

theorem empty_array_treated_as_failure_witness :
    mainPostGenerate (generate_flashcards (fun _ => some (lit "[]")) (lit "t") 3) =
      PostGen.skipped ∧
    mainPostGenerate none = PostGen.skipped :=
  empty_array_treated_as_failure _ _ _ rfl

/-- C10: for a response that opens with a fence, only the segment
between the first and second triple-backtick runs (minus a json tag) is
parsed; everything after the second run is discarded, whatever it is. -/
theorem fence_truncates_after_second (mid after : PyStr) (hmid : 96 ∉ mid) :
    decodeResponse (ticks ++ mid ++ ticks ++ after) = json_loads (jsonTagStrip mid) := by
  rw [decodeResponse_eq, pyStrip_fence_after, fenceStrip_mid (pyRStrip after) hmid]

theorem fence_truncates_after_second_witness :
    (96 : Nat) ∉ lit "[1]" ∧
    decodeResponse (ticks ++ lit "[1]" ++ ticks ++ lit ", 2]") =
      json_loads (jsonTagStrip (lit "[1]")) ∧
    json_loads (jsonTagStrip (lit "[1]")) = some (Json.arr [Json.num (lit "1")]) :=
  ⟨by decide, fence_truncates_after_second (lit "[1]") (lit ", 2]") (by decide), rfl⟩
